import Mathlib

/-!
Shallow embedding of the go-colorful color library (src/colors.go) over the
real numbers, together with theorems settling the specification claims.

Go float64 arithmetic is modelled by exact real arithmetic: `math.Pow` by
`Real.rpow`, `math.Sqrt` by `Real.sqrt`, `math.Cbrt` by an odd real cube
root, `math.Mod` by truncated remainder, `math.Atan2` by a quadrant-correct
arctangent, and `math.Min`/`math.Max` by `min`/`max`.
-/

noncomputable section

namespace colorful

open Real

open scoped Classical

/-- Color as stored by the library: sRGB components, nominally in [0,1]. -/
structure Color where
  R : ℝ
  G : ℝ
  B : ℝ

/-- Tolerance used when comparing colors using AlmostEqualRgb (1/255). -/
def Delta : ℝ := 1 / 255

/-- Default reference white point, as the triple (X, Y, Z). -/
def D65 : ℝ × ℝ × ℝ := (0.95047, 1, 1.08883)

/-- Alternative reference white point D50. -/
def D50 : ℝ × ℝ × ℝ := (0.96422, 1, 0.82521)

/-- Whether the color exists in RGB space, i.e. all values are in [0..1]. -/
def Color.IsValid (c : Color) : Prop :=
  0 ≤ c.R ∧ c.R ≤ 1 ∧ 0 ≤ c.G ∧ c.G ≤ 1 ∧ 0 ≤ c.B ∧ c.B ≤ 1

/-- clamp01 clamps from 0 to 1. -/
def clamp01 (v : ℝ) : ℝ := max 0 (min v 1)

/-- Clamps the color into valid range, clamping each value to [0..1]. -/
def Color.Clamped (c : Color) : Color := ⟨clamp01 c.R, clamp01 c.G, clamp01 c.B⟩

/-- Square of a real, as in the source helper sq. -/
def sq (v : ℝ) : ℝ := v * v

/-- Cube of a real, as in the source helper cub. -/
def cub (v : ℝ) : ℝ := v * v * v

/-- Odd real cube root, the model of Go math.Cbrt. -/
def cbrt (x : ℝ) : ℝ := if x < 0 then -((-x) ^ ((1:ℝ) / 3)) else x ^ ((1:ℝ) / 3)

/-- Truncated floating remainder, the model of Go math.Mod: the result has
the sign of the dividend. -/
def gomod (x y : ℝ) : ℝ :=
  if 0 ≤ x / y then x - y * ⌊x / y⌋ else x - y * ⌈x / y⌉

/-- Quadrant-correct arctangent, the model of Go math.Atan2 (range (-π, π]). -/
def atan2 (y x : ℝ) : ℝ :=
  if 0 < x then arctan (y / x)
  else if x < 0 ∧ 0 ≤ y then arctan (y / x) + π
  else if x < 0 then arctan (y / x) - π
  else if 0 < y then π / 2
  else if y < 0 then -(π / 2)
  else 0

/-- DistanceRgb computes the distance between two colors in RGB space. -/
def Color.DistanceRgb (c1 c2 : Color) : ℝ :=
  Real.sqrt (sq (c1.R - c2.R) + sq (c1.G - c2.G) + sq (c1.B - c2.B))

/-- DistanceRiemersma, a perceptual-proxy distance computed on RGB. -/
def Color.DistanceRiemersma (c1 c2 : Color) : ℝ :=
  let rAvg := (c1.R + c2.R) / 2
  let dR := c1.R - c2.R
  let dG := c1.G - c2.G
  let dB := c1.B - c2.B
  Real.sqrt ((2 + rAvg) * dR * dR + 4 * dG * dG + (2 + (1 - rAvg)) * dB * dB)

/-- Check for equality between colors within the tolerance Delta (1/255). -/
def Color.AlmostEqualRgb (c1 c2 : Color) : Prop :=
  |c1.R - c2.R| + |c1.G - c2.G| + |c1.B - c2.B| < 3 * Delta

/-- BlendRgb linearly interpolates the two colors channel by channel. -/
def BlendRgb (c1 c2 : Color) (t : ℝ) : Color :=
  ⟨c1.R + t * (c2.R - c1.R), c1.G + t * (c2.G - c1.G), c1.B + t * (c2.B - c1.B)⟩

/-- Utility used by Hxx color-spaces for interpolating between two angles
in [0,360]. -/
def interp_angle (a0 a1 t : ℝ) : ℝ :=
  let delta := gomod (gomod (a1 - a0) 360 + 540) 360 - 180
  gomod (a0 + t * delta + 360) 360

/-- Hsv (method form) returns the Hue [0..360], Saturation and Value [0..1]
of the color. -/
def Color.Hsv (col : Color) : ℝ × ℝ × ℝ :=
  let mn := min (min col.R col.G) col.B
  let v := max (max col.R col.G) col.B
  let C := v - mn
  let s := if v ≠ 0 then C / v else 0
  let h0 := if v = col.R then gomod ((col.G - col.B) / C) 6 else 0
  let h1 := if v = col.G then (col.B - col.R) / C + 2 else h0
  let h2 := if v = col.B then (col.R - col.G) / C + 4 else h1
  let h3 := h2 * 60
  let h4 := if h3 < 0 then h3 + 360 else h3
  let h := if mn ≠ v then h4 else 0
  (h, s, v)

/-- Hsv creates a new Color given a Hue in [0..360], a Saturation and a
Value in [0..1]. -/
def Hsv (H S V : ℝ) : Color :=
  let Hp := H / 60
  let C := V * S
  let X := C * (1 - |gomod Hp 2 - 1|)
  let m := V - C
  let rgb : ℝ × ℝ × ℝ :=
    if 0 ≤ Hp ∧ Hp < 1 then (C, X, 0)
    else if 1 ≤ Hp ∧ Hp < 2 then (X, C, 0)
    else if 2 ≤ Hp ∧ Hp < 3 then (0, C, X)
    else if 3 ≤ Hp ∧ Hp < 4 then (0, X, C)
    else if 4 ≤ Hp ∧ Hp < 5 then (X, 0, C)
    else if 5 ≤ Hp ∧ Hp < 6 then (C, 0, X)
    else (0, 0, 0)
  ⟨m + rgb.1, m + rgb.2.1, m + rgb.2.2⟩

/-- Hue actually passed by BlendHsv to the inverse conversion, after the
gray-endpoint hue substitution. -/
def blendHsvHue (c1 c2 : Color) (t : ℝ) : ℝ :=
  let f1 := c1.Hsv
  let f2 := c2.Hsv
  let hs : ℝ × ℝ :=
    if f1.2.1 = 0 ∧ f2.2.1 ≠ 0 then (f2.1, f2.1)
    else if f2.2.1 = 0 ∧ f1.2.1 ≠ 0 then (f1.1, f1.1)
    else (f1.1, f2.1)
  interp_angle hs.1 hs.2 t

/-- BlendHsv blends the two colors in HSV space. -/
def BlendHsv (c1 c2 : Color) (t : ℝ) : Color :=
  let f1 := c1.Hsv
  let f2 := c2.Hsv
  Hsv (blendHsvHue c1 c2 t) (f1.2.1 + t * (f2.2.1 - f1.2.1))
    (f1.2.2 + t * (f2.2.2 - f1.2.2))

/-- Hsl (method form) returns the Hue [0..360], Saturation [0..1], and
Luminance (lightness) [0..1] of the color. -/
def Color.Hsl (col : Color) : ℝ × ℝ × ℝ :=
  let mn := min (min col.R col.G) col.B
  let mx := max (max col.R col.G) col.B
  let l := (mx + mn) / 2
  if mn = mx then (0, 0, l)
  else
    let s := if l < 0.5 then (mx - mn) / (mx + mn) else (mx - mn) / (2 - mx - mn)
    let h0 :=
      if mx = col.R then (col.G - col.B) / (mx - mn)
      else if mx = col.G then 2 + (col.B - col.R) / (mx - mn)
      else 4 + (col.R - col.G) / (mx - mn)
    let h1 := h0 * 60
    let h := if h1 < 0 then h1 + 360 else h1
    (h, s, l)

/-- Helper for the Hsl inverse: one channel of the three-breakpoint
reconstruction. -/
def hslChannel (t1 t2 tc : ℝ) : ℝ :=
  if 6 * tc < 1 then t2 + (t1 - t2) * 6 * tc
  else if 2 * tc < 1 then t1
  else if 3 * tc < 2 then t2 + (t1 - t2) * (2 / 3 - tc) * 6
  else t2

/-- Hsl creates a new Color given a Hue in [0..360], a Saturation [0..1],
and a Luminance (lightness) in [0..1]. -/
def Hsl (h s l : ℝ) : Color :=
  if s = 0 then ⟨l, l, l⟩
  else
    let t1 := if l < 0.5 then l * (1 + s) else l + s - l * s
    let t2 := 2 * l - t1
    let h' := h / 360
    let tr0 := h' + 1 / 3
    let tg0 := h'
    let tb0 := h' - 1 / 3
    let tr1 := if tr0 < 0 then tr0 + 1 else tr0
    let tr := if tr1 > 1 then tr1 - 1 else tr1
    let tg1 := if tg0 < 0 then tg0 + 1 else tg0
    let tg := if tg1 > 1 then tg1 - 1 else tg1
    let tb1 := if tb0 < 0 then tb0 + 1 else tb0
    let tb := if tb1 > 1 then tb1 - 1 else tb1
    ⟨hslChannel t1 t2 tr, hslChannel t1 t2 tg, hslChannel t1 t2 tb⟩

/-- Forward sRGB companding inverse (gamma expansion). -/
def linearize (v : ℝ) : ℝ :=
  if v ≤ 0.04045 then v / 12.92
  else ((v + 0.055) / 1.055) ^ (2.4 : ℝ)

/-- LinearRgb (method form) converts the color into linear RGB space. -/
def Color.LinearRgb (col : Color) : ℝ × ℝ × ℝ :=
  (linearize col.R, linearize col.G, linearize col.B)

/-- Inverse sRGB companding (gamma compression). -/
def delinearize (v : ℝ) : ℝ :=
  if v ≤ 0.0031308 then 12.92 * v
  else 1.055 * v ^ ((1:ℝ) / 2.4) - 0.055

/-- LinearRgb creates an sRGB color out of the given linear RGB color. -/
def LinearRgb (r g b : ℝ) : Color := ⟨delinearize r, delinearize g, delinearize b⟩

/-- DistanceLinearRgb computes the distance between two colors in linear
RGB space. -/
def Color.DistanceLinearRgb (c1 c2 : Color) : ℝ :=
  let f1 := c1.LinearRgb
  let f2 := c2.LinearRgb
  Real.sqrt (sq (f1.1 - f2.1) + sq (f1.2.1 - f2.2.1) + sq (f1.2.2 - f2.2.2))

/-- XyzToLinearRgb converts from CIE XYZ-space to Linear RGB space. -/
def XyzToLinearRgb (x y z : ℝ) : ℝ × ℝ × ℝ :=
  (3.2409699419045214 * x - 1.5373831775700935 * y - 0.49861076029300328 * z,
   -0.96924363628087983 * x + 1.8759675015077207 * y + 0.041555057407175613 * z,
   0.055630079696993609 * x - 0.20397695888897657 * y + 1.0569715142428786 * z)

/-- LinearRgbToXyz converts from Linear RGB space to CIE XYZ-space. -/
def LinearRgbToXyz (r g b : ℝ) : ℝ × ℝ × ℝ :=
  (0.41239079926595948 * r + 0.35758433938387796 * g + 0.18048078840183429 * b,
   0.21263900587151036 * r + 0.71516867876775593 * g + 0.072192315360733715 * b,
   0.019330818715591851 * r + 0.11919477979462599 * g + 0.95053215224966058 * b)

/-- Xyz (method form) converts the color to CIE XYZ. -/
def Color.Xyz (col : Color) : ℝ × ℝ × ℝ :=
  let f := col.LinearRgb
  LinearRgbToXyz f.1 f.2.1 f.2.2

/-- Xyz generates a color from CIE XYZ coordinates. -/
def Xyz (x y z : ℝ) : Color :=
  let f := XyzToLinearRgb x y z
  LinearRgb f.1 f.2.1 f.2.2

/-- XyzToXyyWhiteRef converts XYZ to xyY against an explicit reference
white, used only in the degenerate (black) case. -/
def XyzToXyyWhiteRef (X Y Z : ℝ) (wref : ℝ × ℝ × ℝ) : ℝ × ℝ × ℝ :=
  let N := X + Y + Z
  if |N| < 1e-14 then
    (wref.1 / (wref.1 + wref.2.1 + wref.2.2),
     wref.2.1 / (wref.1 + wref.2.1 + wref.2.2), Y)
  else (X / N, Y / N, Y)

/-- XyzToXyy converts XYZ to xyY with the default D65 white. -/
def XyzToXyy (X Y Z : ℝ) : ℝ × ℝ × ℝ := XyzToXyyWhiteRef X Y Z D65

/-- XyyToXyz reconstructs XYZ from chromaticity plus luminance. -/
def XyyToXyz (x y Y : ℝ) : ℝ × ℝ × ℝ :=
  if -1e-14 < y ∧ y < 1e-14 then (0, Y, 0)
  else (Y / y * x, Y, Y / y * (1 - x - y))

/-- Xyy (method form) converts the color to CIE xyY (D65 reference white). -/
def Color.Xyy (col : Color) : ℝ × ℝ × ℝ :=
  let f := col.Xyz
  XyzToXyy f.1 f.2.1 f.2.2

/-- XyyWhiteRef (method form) converts the color to CIE xyY against a given
reference white. -/
def Color.XyyWhiteRef (col : Color) (wref : ℝ × ℝ × ℝ) : ℝ × ℝ × ℝ :=
  let f := col.Xyz
  XyzToXyyWhiteRef f.1 f.2.1 f.2.2 wref

/-- Xyy generates a color from CIE xyY coordinates. -/
def Xyy (x y Y : ℝ) : Color :=
  let f := XyyToXyz x y Y
  Xyz f.1 f.2.1 f.2.2

/-- BlendLinearRgb blends two colors in the Linear RGB color-space. -/
def BlendLinearRgb (c1 c2 : Color) (t : ℝ) : Color :=
  let f1 := c1.LinearRgb
  let f2 := c2.LinearRgb
  LinearRgb (f1.1 + t * (f2.1 - f1.1)) (f1.2.1 + t * (f2.2.1 - f1.2.1))
    (f1.2.2 + t * (f2.2.2 - f1.2.2))

/-- CIE companding function for L*a*b*. -/
def lab_f (t : ℝ) : ℝ :=
  if t > 6 / 29 * 6 / 29 * 6 / 29 then cbrt t
  else t / 3 * 29 / 6 * 29 / 6 + 4 / 29

/-- XyzToLabWhiteRef converts XYZ to L*a*b* against a reference white. -/
def XyzToLabWhiteRef (x y z : ℝ) (wref : ℝ × ℝ × ℝ) : ℝ × ℝ × ℝ :=
  let fy := lab_f (y / wref.2.1)
  (1.16 * fy - 0.16, 5 * (lab_f (x / wref.1) - fy), 2 * (fy - lab_f (z / wref.2.2)))

/-- XyzToLab converts XYZ to L*a*b* with the default D65 white. -/
def XyzToLab (x y z : ℝ) : ℝ × ℝ × ℝ := XyzToLabWhiteRef x y z D65

/-- Inverse CIE companding function for L*a*b*. -/
def lab_finv (t : ℝ) : ℝ :=
  if t > 6 / 29 then t * t * t
  else 3 * 6 / 29 * 6 / 29 * (t - 4 / 29)

/-- LabToXyzWhiteRef converts L*a*b* to XYZ against a reference white. -/
def LabToXyzWhiteRef (l a b : ℝ) (wref : ℝ × ℝ × ℝ) : ℝ × ℝ × ℝ :=
  let l2 := (l + 0.16) / 1.16
  (wref.1 * lab_finv (l2 + a / 5), wref.2.1 * lab_finv l2,
   wref.2.2 * lab_finv (l2 - b / 2))

/-- LabToXyz converts L*a*b* to XYZ with the default D65 white. -/
def LabToXyz (l a b : ℝ) : ℝ × ℝ × ℝ := LabToXyzWhiteRef l a b D65

/-- Lab (method form) converts the color to CIE L*a*b* (D65 white). -/
def Color.Lab (col : Color) : ℝ × ℝ × ℝ :=
  let f := col.Xyz
  XyzToLab f.1 f.2.1 f.2.2

/-- LabWhiteRef (method form) converts the color to CIE L*a*b* against a
given reference white. -/
def Color.LabWhiteRef (col : Color) (wref : ℝ × ℝ × ℝ) : ℝ × ℝ × ℝ :=
  let f := col.Xyz
  XyzToLabWhiteRef f.1 f.2.1 f.2.2 wref

/-- Lab generates a color from CIE L*a*b* coordinates (D65 white). -/
def Lab (l a b : ℝ) : Color :=
  let f := LabToXyz l a b
  Xyz f.1 f.2.1 f.2.2

/-- LabWhiteRef generates a color from CIE L*a*b* coordinates against a
given reference white. -/
def LabWhiteRef (l a b : ℝ) (wref : ℝ × ℝ × ℝ) : Color :=
  let f := LabToXyzWhiteRef l a b wref
  Xyz f.1 f.2.1 f.2.2

/-- DistanceLab is the Euclidean distance in L*a*b* space (CIE76). -/
def Color.DistanceLab (c1 c2 : Color) : ℝ :=
  let f1 := c1.Lab
  let f2 := c2.Lab
  Real.sqrt (sq (f1.1 - f2.1) + sq (f1.2.1 - f2.2.1) + sq (f1.2.2 - f2.2.2))

/-- DistanceCIE76 is the same as DistanceLab. -/
def Color.DistanceCIE76 (c1 c2 : Color) : ℝ := c1.DistanceLab c2

/-- DistanceCIE94 uses the CIE94 formula to calculate color distance. -/
def Color.DistanceCIE94 (cl cr : Color) : ℝ :=
  let f1 := cl.Lab
  let f2 := cr.Lab
  let l1 := f1.1 * 100
  let a1 := f1.2.1 * 100
  let b1 := f1.2.2 * 100
  let l2 := f2.1 * 100
  let a2 := f2.2.1 * 100
  let b2 := f2.2.2 * 100
  let kl := 1
  let kc := 1
  let kh := 1
  let k1 := 0.045
  let k2 := 0.015
  let deltaL := l1 - l2
  let c1 := Real.sqrt (sq a1 + sq b1)
  let c2 := Real.sqrt (sq a2 + sq b2)
  let deltaCab := c1 - c2
  let deltaHab2 := sq (a1 - a2) + sq (b1 - b2) - sq deltaCab
  let sl := 1
  let sc := 1 + k1 * c1
  let sh := 1 + k2 * c1
  let vL2 := sq (deltaL / (kl * sl))
  let vC2 := sq (deltaCab / (kc * sc))
  let vH2 := deltaHab2 / sq (kh * sh)
  Real.sqrt (vL2 + vC2 + vH2) * 0.01

/-- G correction factor of the CIEDE2000 formula. -/
def ciedeG (cab1 cab2 : ℝ) : ℝ :=
  0.5 * (1 - Real.sqrt (((cab1 + cab2) / 2) ^ (7 : ℝ) /
    (((cab1 + cab2) / 2) ^ (7 : ℝ) + (25 : ℝ) ^ (7 : ℝ))))

/-- Primed hue (degrees in [0,360)) of one color in the CIEDE2000 formula. -/
def ciedeHp (ap b : ℝ) : ℝ :=
  if b ≠ ap ∨ ap ≠ 0 then
    (if atan2 b ap < 0 then atan2 b ap + π * 2 else atan2 b ap) * (180 / π)
  else 0

/-- Primed-hue difference with wraparound handling in the CIEDE2000
formula. -/
def ciedeDhp (cp1 cp2 hp1 hp2 : ℝ) : ℝ :=
  if cp1 * cp2 ≠ 0 then
    (if hp2 - hp1 > 180 then hp2 - hp1 - 360
     else if hp2 - hp1 < -180 then hp2 - hp1 + 360
     else hp2 - hp1)
  else 0

/-- Mean primed hue with wraparound correction in the CIEDE2000 formula. -/
def ciedeHpmean (cp1 cp2 hp1 hp2 : ℝ) : ℝ :=
  if cp1 * cp2 ≠ 0 then
    (if |hp1 - hp2| > 180 then
       (if hp1 + hp2 < 360 then (hp1 + hp2) / 2 + 180 else (hp1 + hp2) / 2 - 180)
     else (hp1 + hp2) / 2)
  else hp1 + hp2

/-- Final combination step of the CIEDE2000 formula, starting from the
scaled lightnesses and the primed chromas and hues. -/
def ciedeTail (kl kc kh l1 cp1 hp1 l2 cp2 hp2 : ℝ) : ℝ :=
  let deltaLp := l2 - l1
  let deltaCp := cp2 - cp1
  let dhp := ciedeDhp cp1 cp2 hp1 hp2
  let deltaHp := 2 * Real.sqrt (cp1 * cp2) * Real.sin (dhp / 2 * π / 180)
  let lpmean := (l1 + l2) / 2
  let cpmean := (cp1 + cp2) / 2
  let hpmean := ciedeHpmean cp1 cp2 hp1 hp2
  let t := 1 - 0.17 * Real.cos ((hpmean - 30) * π / 180) +
    0.24 * Real.cos (2 * hpmean * π / 180) +
    0.32 * Real.cos ((3 * hpmean + 6) * π / 180) -
    0.2 * Real.cos ((4 * hpmean - 63) * π / 180)
  let deltaTheta := 30 * Real.exp (-sq ((hpmean - 275) / 25))
  let rc := 2 * Real.sqrt (cpmean ^ (7 : ℝ) / (cpmean ^ (7 : ℝ) + (25 : ℝ) ^ (7 : ℝ)))
  let sl := 1 + (0.015 * sq (lpmean - 50)) / Real.sqrt (20 + sq (lpmean - 50))
  let sc := 1 + 0.045 * cpmean
  let sh := 1 + 0.015 * cpmean * t
  let rt := -Real.sin (2 * deltaTheta * π / 180) * rc
  Real.sqrt (sq (deltaLp / (kl * sl)) + sq (deltaCp / (kc * sc)) +
    sq (deltaHp / (kh * sh)) +
    rt * (deltaCp / (kc * sc)) * (deltaHp / (kh * sh))) * 0.01

/-- DistanceCIEDE2000klch uses the Delta E 2000 formula with custom
weighting factors kL, kC, kH. -/
def Color.DistanceCIEDE2000klch (cl cr : Color) (kl kc kh : ℝ) : ℝ :=
  let f1 := cl.Lab
  let f2 := cr.Lab
  let l1 := f1.1 * 100
  let a1 := f1.2.1 * 100
  let b1 := f1.2.2 * 100
  let l2 := f2.1 * 100
  let a2 := f2.2.1 * 100
  let b2 := f2.2.2 * 100
  let cab1 := Real.sqrt (sq a1 + sq b1)
  let cab2 := Real.sqrt (sq a2 + sq b2)
  let g := ciedeG cab1 cab2
  let ap1 := (1 + g) * a1
  let ap2 := (1 + g) * a2
  let cp1 := Real.sqrt (sq ap1 + sq b1)
  let cp2 := Real.sqrt (sq ap2 + sq b2)
  let hp1 := ciedeHp ap1 b1
  let hp2 := ciedeHp ap2 b2
  ciedeTail kl kc kh l1 cp1 hp1 l2 cp2 hp2

/-- DistanceCIEDE2000 uses the Delta E 2000 formula with default weights. -/
def Color.DistanceCIEDE2000 (cl cr : Color) : ℝ :=
  cl.DistanceCIEDE2000klch cr 1 1 1

/-- BlendLab blends two colors in the L*a*b* color-space. -/
def BlendLab (c1 c2 : Color) (t : ℝ) : Color :=
  let f1 := c1.Lab
  let f2 := c2.Lab
  Lab (f1.1 + t * (f2.1 - f1.1)) (f1.2.1 + t * (f2.2.1 - f1.2.1))
    (f1.2.2 + t * (f2.2.2 - f1.2.2))

/-- Chromaticity helper u', v' for the L*u*v* conversions. -/
def xyz_to_uv (x y z : ℝ) : ℝ × ℝ :=
  let denom := x + 15 * y + 3 * z
  if denom = 0 then (0, 0) else (4 * x / denom, 9 * y / denom)

/-- XyzToLuvWhiteRef converts XYZ to L*u*v* against a reference white. -/
def XyzToLuvWhiteRef (x y z : ℝ) (wref : ℝ × ℝ × ℝ) : ℝ × ℝ × ℝ :=
  let l :=
    if y / wref.2.1 ≤ 6 / 29 * 6 / 29 * 6 / 29 then
      y / wref.2.1 * (29 / 3 * 29 / 3 * 29 / 3) / 100
    else 1.16 * cbrt (y / wref.2.1) - 0.16
  let uv := xyz_to_uv x y z
  let uvn := xyz_to_uv wref.1 wref.2.1 wref.2.2
  (l, 13 * l * (uv.1 - uvn.1), 13 * l * (uv.2 - uvn.2))

/-- XyzToLuv converts XYZ to L*u*v* with the default D65 white. -/
def XyzToLuv (x y z : ℝ) : ℝ × ℝ × ℝ := XyzToLuvWhiteRef x y z D65

/-- LuvToXyzWhiteRef converts L*u*v* to XYZ against a reference white. -/
def LuvToXyzWhiteRef (l u v : ℝ) (wref : ℝ × ℝ × ℝ) : ℝ × ℝ × ℝ :=
  let y :=
    if l ≤ 0.08 then wref.2.1 * l * 100 * 3 / 29 * 3 / 29 * 3 / 29
    else wref.2.1 * cub ((l + 0.16) / 1.16)
  let uvn := xyz_to_uv wref.1 wref.2.1 wref.2.2
  if l ≠ 0 then
    let ubis := u / (13 * l) + uvn.1
    let vbis := v / (13 * l) + uvn.2
    (y * 9 * ubis / (4 * vbis), y, y * (12 - 3 * ubis - 20 * vbis) / (4 * vbis))
  else (0, 0, 0)

/-- LuvToXyz converts L*u*v* to XYZ with the default D65 white. -/
def LuvToXyz (l u v : ℝ) : ℝ × ℝ × ℝ := LuvToXyzWhiteRef l u v D65

/-- Luv (method form) converts the color to CIE L*u*v* (D65 white). -/
def Color.Luv (col : Color) : ℝ × ℝ × ℝ :=
  let f := col.Xyz
  XyzToLuv f.1 f.2.1 f.2.2

/-- LuvWhiteRef (method form) converts the color to CIE L*u*v* against a
given reference white. -/
def Color.LuvWhiteRef (col : Color) (wref : ℝ × ℝ × ℝ) : ℝ × ℝ × ℝ :=
  let f := col.Xyz
  XyzToLuvWhiteRef f.1 f.2.1 f.2.2 wref

/-- Luv generates a color from CIE L*u*v* coordinates (D65 white). -/
def Luv (l u v : ℝ) : Color :=
  let f := LuvToXyz l u v
  Xyz f.1 f.2.1 f.2.2

/-- LuvWhiteRef generates a color from CIE L*u*v* coordinates against a
given reference white. -/
def LuvWhiteRef (l u v : ℝ) (wref : ℝ × ℝ × ℝ) : Color :=
  let f := LuvToXyzWhiteRef l u v wref
  Xyz f.1 f.2.1 f.2.2

/-- DistanceLuv is the Euclidean distance in L*u*v* space. -/
def Color.DistanceLuv (c1 c2 : Color) : ℝ :=
  let f1 := c1.Luv
  let f2 := c2.Luv
  Real.sqrt (sq (f1.1 - f2.1) + sq (f1.2.1 - f2.2.1) + sq (f1.2.2 - f2.2.2))

/-- BlendLuv blends two colors in the CIE-L*u*v* color-space. -/
def BlendLuv (c1 c2 : Color) (t : ℝ) : Color :=
  let f1 := c1.Luv
  let f2 := c2.Luv
  Luv (f1.1 + t * (f2.1 - f1.1)) (f1.2.1 + t * (f2.2.1 - f1.2.1))
    (f1.2.2 + t * (f2.2.2 - f1.2.2))

/-- LabToHcl re-expresses L*a*b* in cylindrical coordinates, with the
near-zero hue workaround of the source. -/
def LabToHcl (L a b : ℝ) : ℝ × ℝ × ℝ :=
  let h :=
    if |b - a| > 1e-4 ∧ |a| > 1e-4 then
      gomod (57.29577951308232087721 * atan2 b a + 360) 360
    else 0
  (h, Real.sqrt (sq a + sq b), L)

/-- HclWhiteRef (method form) converts the color to HCL against a given
reference white. -/
def Color.HclWhiteRef (col : Color) (wref : ℝ × ℝ × ℝ) : ℝ × ℝ × ℝ :=
  let f := col.LabWhiteRef wref
  LabToHcl f.1 f.2.1 f.2.2

/-- Hcl (method form) converts the color to HCL (D65 white). -/
def Color.Hcl (col : Color) : ℝ × ℝ × ℝ := col.HclWhiteRef D65

/-- HclToLab converts cylindrical HCL coordinates back to L*a*b*. -/
def HclToLab (h c l : ℝ) : ℝ × ℝ × ℝ :=
  let H := 0.01745329251994329576 * h
  (l, c * Real.cos H, c * Real.sin H)

/-- HclWhiteRef generates a color from HCL coordinates against a given
reference white. -/
def HclWhiteRef (h c l : ℝ) (wref : ℝ × ℝ × ℝ) : Color :=
  let f := HclToLab h c l
  LabWhiteRef f.1 f.2.1 f.2.2 wref

/-- Hcl generates a color from HCL coordinates (D65 white). -/
def Hcl (h c l : ℝ) : Color := HclWhiteRef h c l D65

/-- Hue actually passed by BlendHcl to the inverse conversion, after the
near-gray hue substitution. -/
def blendHclHue (col1 col2 : Color) (t : ℝ) : ℝ :=
  let f1 := col1.Hcl
  let f2 := col2.Hcl
  let hs : ℝ × ℝ :=
    if f1.2.1 ≤ 0.00015 ∧ f2.2.1 ≥ 0.00015 then (f2.1, f2.1)
    else if f2.2.1 ≤ 0.00015 ∧ f1.2.1 ≥ 0.00015 then (f1.1, f1.1)
    else (f1.1, f2.1)
  interp_angle hs.1 hs.2 t

/-- BlendHcl blends two colors in HCL space, clamping the result. -/
def BlendHcl (col1 col2 : Color) (t : ℝ) : Color :=
  let f1 := col1.Hcl
  let f2 := col2.Hcl
  (Hcl (blendHclHue col1 col2 t) (f1.2.1 + t * (f2.2.1 - f1.2.1))
    (f1.2.2 + t * (f2.2.2 - f1.2.2))).Clamped

/-- LuvToLuvLCh re-expresses L*u*v* in cylindrical coordinates, with the
near-zero hue workaround of the source. Returns (l, c, h). -/
def LuvToLuvLCh (L u v : ℝ) : ℝ × ℝ × ℝ :=
  let h :=
    if |v - u| > 1e-4 ∧ |u| > 1e-4 then
      gomod (57.29577951308232087721 * atan2 v u + 360) 360
    else 0
  (L, Real.sqrt (sq u + sq v), h)

/-- LuvLChWhiteRef (method form) converts the color to LuvLCh against a
given reference white. -/
def Color.LuvLChWhiteRef (col : Color) (wref : ℝ × ℝ × ℝ) : ℝ × ℝ × ℝ :=
  let f := col.LuvWhiteRef wref
  LuvToLuvLCh f.1 f.2.1 f.2.2

/-- LuvLCh (method form) converts the color to LuvLCh (D65 white). -/
def Color.LuvLCh (col : Color) : ℝ × ℝ × ℝ := col.LuvLChWhiteRef D65

/-- LuvLChToLuv converts cylindrical LuvLCh coordinates back to L*u*v*. -/
def LuvLChToLuv (l c h : ℝ) : ℝ × ℝ × ℝ :=
  let H := 0.01745329251994329576 * h
  (l, c * Real.cos H, c * Real.sin H)

/-- LuvLChWhiteRef generates a color from LuvLCh coordinates against a
given reference white. -/
def LuvLChWhiteRef (l c h : ℝ) (wref : ℝ × ℝ × ℝ) : Color :=
  let f := LuvLChToLuv l c h
  LuvWhiteRef f.1 f.2.1 f.2.2 wref

/-- LuvLCh generates a color from LuvLCh coordinates (D65 white). -/
def LuvLCh (l c h : ℝ) : Color := LuvLChWhiteRef l c h D65

/-- Hue actually passed by BlendLuvLCh to the inverse conversion; note the
absence of any gray-endpoint hue substitution. -/
def blendLuvLChHue (col1 col2 : Color) (t : ℝ) : ℝ :=
  interp_angle (col1.LuvLCh).2.2 (col2.LuvLCh).2.2 t

/-- BlendLuvLCh blends two colors in the cylindrical CIELUV color space. -/
def BlendLuvLCh (col1 col2 : Color) (t : ℝ) : Color :=
  let f1 := col1.LuvLCh
  let f2 := col2.LuvLCh
  LuvLCh (f1.1 + t * (f2.1 - f1.1)) (f1.2.1 + t * (f2.2.1 - f1.2.1))
    (blendLuvLChHue col1 col2 t)

/-- Bounding a rational power from below reduces to integer powers. -/
lemma le_rpow_ratio {x a : ℝ} (n m : ℕ) (hn : n ≠ 0) (hx : 0 ≤ x) (ha : 0 ≤ a)
    (h : a ^ n ≤ x ^ m) : a ≤ x ^ ((m : ℝ) / n) := by
  have key : x ^ ((m : ℝ) / n) = (x ^ m : ℝ) ^ ((1 : ℝ) / n) := by
    rw [← Real.rpow_natCast x m, ← Real.rpow_mul hx]
    ring_nf
  have ha' : a = (a ^ n : ℝ) ^ ((1 : ℝ) / n) := by
    rw [← Real.rpow_natCast a n, ← Real.rpow_mul ha, mul_one_div,
      div_self (by exact_mod_cast hn), Real.rpow_one]
  rw [key, ha']
  exact Real.rpow_le_rpow (pow_nonneg ha n) h (by positivity)

/-- Bounding a rational power from above reduces to integer powers. -/
lemma rpow_ratio_le {x b : ℝ} (n m : ℕ) (hn : n ≠ 0) (hx : 0 ≤ x) (hb : 0 ≤ b)
    (h : x ^ m ≤ b ^ n) : x ^ ((m : ℝ) / n) ≤ b := by
  have key : x ^ ((m : ℝ) / n) = (x ^ m : ℝ) ^ ((1 : ℝ) / n) := by
    rw [← Real.rpow_natCast x m, ← Real.rpow_mul hx]
    ring_nf
  have hb' : b = (b ^ n : ℝ) ^ ((1 : ℝ) / n) := by
    rw [← Real.rpow_natCast b n, ← Real.rpow_mul hb, mul_one_div,
      div_self (by exact_mod_cast hn), Real.rpow_one]
  rw [key, hb']
  exact Real.rpow_le_rpow (pow_nonneg hx m) h (by positivity)

/-- Strict upper bound of a rational power via integer powers. -/
lemma rpow_ratio_lt {x b : ℝ} (n m : ℕ) (hn : n ≠ 0) (hx : 0 ≤ x) (hb : 0 ≤ b)
    (h : x ^ m < b ^ n) : x ^ ((m : ℝ) / n) < b := by
  have key : x ^ ((m : ℝ) / n) = (x ^ m : ℝ) ^ ((1 : ℝ) / n) := by
    rw [← Real.rpow_natCast x m, ← Real.rpow_mul hx]
    ring_nf
  have hb' : b = (b ^ n : ℝ) ^ ((1 : ℝ) / n) := by
    rw [← Real.rpow_natCast b n, ← Real.rpow_mul hb, mul_one_div,
      div_self (by exact_mod_cast hn), Real.rpow_one]
  rw [key, hb']
  exact Real.rpow_lt_rpow (pow_nonneg hx m) h (by positivity)

/-- Two-sided bound of a rational power of an interval-bounded real. -/
lemma rpow_ratio_bounds {x lo hi a b : ℝ} (n m : ℕ) (hn : n ≠ 0) (hlo : 0 ≤ lo)
    (h1 : lo ≤ x) (h2 : x ≤ hi) (ha : 0 ≤ a) (hb : 0 ≤ b)
    (hA : a ^ n ≤ lo ^ m) (hB : hi ^ m ≤ b ^ n) :
    a ≤ x ^ ((m : ℝ) / n) ∧ x ^ ((m : ℝ) / n) ≤ b := by
  have hx : 0 ≤ x := hlo.trans h1
  constructor
  · exact le_rpow_ratio n m hn hx ha (hA.trans (pow_le_pow_left₀ hlo h1 m))
  · exact rpow_ratio_le n m hn hx hb ((pow_le_pow_left₀ hx h2 m).trans hB)

/-- cbrt agrees with the real power 1/3 on nonnegative inputs. -/
lemma cbrt_of_nonneg {x : ℝ} (hx : 0 ≤ x) : cbrt x = x ^ ((1 : ℝ) / 3) :=
  if_neg (not_lt.mpr hx)

/-- Two-sided rational bound of the cube root. -/
lemma cbrt_bounds {x a b : ℝ} (hx : 0 ≤ x) (ha : 0 ≤ a) (hb : 0 ≤ b)
    (hA : a ^ 3 ≤ x) (hB : x ≤ b ^ 3) : a ≤ cbrt x ∧ cbrt x ≤ b := by
  rw [cbrt_of_nonneg hx]
  have e : ((1 : ℝ) / 3) = ((1 : ℕ) : ℝ) / ((3 : ℕ) : ℝ) := by norm_num
  rw [e]
  constructor
  · exact le_rpow_ratio 3 1 (by norm_num) hx ha (by simpa using hA)
  · exact rpow_ratio_le 3 1 (by norm_num) hx hb (by simpa using hB)

/-- cbrt is strictly monotone on nonnegative inputs. -/
lemma cbrt_lt_cbrt {x y : ℝ} (hx : 0 ≤ x) (hxy : x < y) : cbrt x < cbrt y := by
  rw [cbrt_of_nonneg hx, cbrt_of_nonneg (hx.trans hxy.le)]
  exact Real.rpow_lt_rpow hx hxy (by norm_num)

/-- Evaluation of gomod when the quotient is nonnegative and its integer
part is known. -/
lemma gomod_eval {x y : ℝ} (k : ℤ) (h0 : 0 ≤ x / y) (h1 : (k : ℝ) ≤ x / y)
    (h2 : x / y < k + 1) : gomod x y = x - y * k := by
  have hk : ⌊x / y⌋ = k := Int.floor_eq_iff.mpr ⟨h1, h2⟩
  rw [gomod, if_pos h0, hk]

/-- Evaluation of gomod when the quotient is negative and its integer part
is known. -/
lemma gomod_eval_neg {x y : ℝ} (k : ℤ) (h0 : ¬0 ≤ x / y) (h1 : (k : ℝ) - 1 < x / y)
    (h2 : x / y ≤ k) : gomod x y = x - y * k := by
  have hk : ⌈x / y⌉ = k := Int.ceil_eq_iff.mpr ⟨h1, h2⟩
  rw [gomod, if_neg h0, hk]

/-- gomod of a nonnegative dividend by a positive divisor lies in [0, y). -/
lemma gomod_nonneg_lt {x y : ℝ} (hy : 0 < y) (hx : 0 ≤ x) :
    0 ≤ gomod x y ∧ gomod x y < y := by
  have h0 : 0 ≤ x / y := div_nonneg hx hy.le
  have hy' : y ≠ 0 := hy.ne'
  have e : x - y * (⌊x / y⌋ : ℝ) = y * Int.fract (x / y) := by
    rw [Int.fract, mul_sub, mul_div_cancel₀ x hy']
  rw [gomod, if_pos h0, e]
  constructor
  · exact mul_nonneg hy.le (Int.fract_nonneg _)
  · have := mul_lt_mul_of_pos_left (Int.fract_lt_one (x / y)) hy
    simpa using this

/-- gomod of a negative quotient by a positive divisor lies in (-y, 0]. -/
lemma gomod_neg_le {x y : ℝ} (hy : 0 < y) (hx : x / y < 0) :
    -y < gomod x y ∧ gomod x y ≤ 0 := by
  have hy' : y ≠ 0 := hy.ne'
  have e : x - y * (⌈x / y⌉ : ℝ) = y * (x / y - ⌈x / y⌉) := by
    rw [mul_sub, mul_div_cancel₀ x hy']
  rw [gomod, if_neg (not_le.mpr hx), e]
  have h1 : x / y ≤ ⌈x / y⌉ := Int.le_ceil _
  have h2 : (⌈x / y⌉ : ℝ) < x / y + 1 := Int.ceil_lt_add_one _
  constructor
  · nlinarith
  · nlinarith

/-- interp_angle stays in [0, 360) for in-range inputs. -/
lemma interp_angle_mem {a0 a1 t : ℝ} (h00 : 0 ≤ a0) (h01 : a0 ≤ 360)
    (h10 : 0 ≤ a1) (h11 : a1 ≤ 360) (ht0 : 0 ≤ t) (ht1 : t ≤ 1) :
    0 ≤ interp_angle a0 a1 t ∧ interp_angle a0 a1 t < 360 := by
  have h360 : (0 : ℝ) < 360 := by norm_num
  have hd1 : -360 < gomod (a1 - a0) 360 ∧ gomod (a1 - a0) 360 < 360 := by
    by_cases hc : 0 ≤ a1 - a0
    · have := gomod_nonneg_lt h360 hc
      constructor <;> linarith [this.1, this.2]
    · have hneg : (a1 - a0) / 360 < 0 :=
        div_neg_of_neg_of_pos (by linarith) h360
      have := gomod_neg_le h360 hneg
      constructor <;> linarith [this.1, this.2]
  have hd2 : 0 ≤ gomod (gomod (a1 - a0) 360 + 540) 360 ∧
      gomod (gomod (a1 - a0) 360 + 540) 360 < 360 :=
    gomod_nonneg_lt h360 (by linarith [hd1.1])
  simp only [interp_angle]
  set delta := gomod (gomod (a1 - a0) 360 + 540) 360 - 180 with hdelta
  have hdlo : -180 ≤ delta := by rw [hdelta]; push_cast; linarith [hd2.1]
  have hdhi : delta < 180 := by rw [hdelta]; push_cast; linarith [hd2.2]
  have htd1 : -180 ≤ t * delta := by nlinarith
  have htd2 : t * delta < 180 := by nlinarith
  have harg : 0 ≤ a0 + t * delta + 360 := by linarith
  exact gomod_nonneg_lt h360 harg

/-- gomod peels off one full period from an angle in [360, 720). -/
lemma gomod_add_period {a : ℝ} (h0 : 0 ≤ a) (h1 : a < 360) :
    gomod (a + 360) 360 = a := by
  have := gomod_eval (x := a + 360) (y := 360) 1 (by positivity)
    (by rw [le_div_iff₀ (by norm_num : (0:ℝ) < 360)]; push_cast; linarith)
    (by rw [div_lt_iff₀ (by norm_num : (0:ℝ) < 360)]; push_cast; linarith)
  push_cast at this
  linarith [this]

/-- interp_angle from an angle to itself returns that angle back. -/
lemma interp_angle_self (a t : ℝ) (h0 : 0 ≤ a) (h1 : a < 360) :
    interp_angle a a t = a := by
  simp only [interp_angle, sub_self]
  have g0 : gomod (0 : ℝ) 360 = 0 := by
    have := gomod_eval (x := (0:ℝ)) (y := 360) 0 (by norm_num) (by norm_num) (by norm_num)
    simpa using this
  rw [g0]
  have g540 : gomod (540 : ℝ) 360 = 180 := by
    have := gomod_eval (x := (540:ℝ)) (y := 360) 1 (by norm_num) (by norm_num) (by norm_num)
    push_cast at this
    linarith [this]
  rw [zero_add, g540]
  norm_num
  exact gomod_add_period h0 h1

/-- interp_angle at t = 0 returns the first angle. -/
lemma interp_angle_t0 (a0 a1 : ℝ) (h0 : 0 ≤ a0) (h1 : a0 < 360) :
    interp_angle a0 a1 0 = a0 := by
  simp only [interp_angle, zero_mul, add_zero]
  exact gomod_add_period h0 h1

/-- atan2 always lies in (-π, π]. -/
lemma atan2_range (y x : ℝ) : -π < atan2 y x ∧ atan2 y x ≤ π := by
  have hpi : 0 < π := Real.pi_pos
  have ha1 : -(π / 2) < arctan (y / x) := Real.neg_pi_div_two_lt_arctan _
  have ha2 : arctan (y / x) < π / 2 := Real.arctan_lt_pi_div_two _
  unfold atan2
  split_ifs with h1 h2 h3 h4 h5
  · constructor <;> linarith
  · have hyx : y / x ≤ 0 := div_nonpos_iff.mpr (Or.inl ⟨h2.2, h2.1.le⟩)
    have hle : arctan (y / x) ≤ 0 := by
      have := Real.arctan_strictMono.monotone hyx
      rwa [Real.arctan_zero] at this
    constructor <;> linarith
  · have hy : y < 0 := by
      by_contra hcon
      exact h2 ⟨h3, not_lt.mp hcon⟩
    have hyx : 0 < y / x := div_pos_iff.mpr (Or.inr ⟨hy, h3⟩)
    have hgt : 0 < arctan (y / x) := by
      have := Real.arctan_strictMono hyx
      rwa [Real.arctan_zero] at this
    constructor <;> linarith
  · constructor <;> linarith
  · constructor <;> linarith
  · constructor <;> linarith

/-- atan2 of a positive point in the open first quadrant lies in (0, π/2). -/
lemma atan2_pos_bounds {y x : ℝ} (hx : 0 < x) (hy : 0 < y) :
    0 < atan2 y x ∧ atan2 y x < π / 2 := by
  rw [atan2, if_pos hx]
  constructor
  · have hq : 0 < y / x := div_pos hy hx
    have := Real.arctan_strictMono hq
    rwa [Real.arctan_zero] at this
  · exact Real.arctan_lt_pi_div_two _

/-- The polar-hue expression used by LabToHcl and LuvToLuvLCh stays in
[0, 360) for any angle in (-π, π]. -/
lemma hue_gomod_mem {θ : ℝ} (h1 : -π < θ) (h2 : θ ≤ π) :
    0 ≤ gomod (57.29577951308232087721 * θ + 360) 360 ∧
      gomod (57.29577951308232087721 * θ + 360) 360 < 360 := by
  have hpi : π < 3.1416 := Real.pi_lt_d4
  have harg : 0 ≤ 57.29577951308232087721 * θ + 360 := by nlinarith
  exact gomod_nonneg_lt (by norm_num) harg

/-- LabToHcl always returns a hue in [0, 360). -/
lemma LabToHcl_h_mem (L a b : ℝ) :
    0 ≤ (LabToHcl L a b).1 ∧ (LabToHcl L a b).1 < 360 := by
  simp only [LabToHcl]
  split_ifs with h
  · exact hue_gomod_mem (atan2_range b a).1 (atan2_range b a).2
  · norm_num

/-- LuvToLuvLCh always returns a hue in [0, 360). -/
lemma LuvToLuvLCh_h_mem (L u v : ℝ) :
    0 ≤ (LuvToLuvLCh L u v).2.2 ∧ (LuvToLuvLCh L u v).2.2 < 360 := by
  simp only [LuvToLuvLCh]
  split_ifs with h
  · exact hue_gomod_mem (atan2_range v u).1 (atan2_range v u).2
  · norm_num

/-- The forward HSV conversion always returns a hue in [0, 360). -/
lemma hsvH_mem (c : Color) : 0 ≤ (Color.Hsv c).1 ∧ (Color.Hsv c).1 < 360 := by
  simp only [Color.Hsv]
  set mn := min (min c.R c.G) c.B with hmn
  set v := max (max c.R c.G) c.B with hv
  by_cases hne : mn ≠ v
  · simp only [if_pos hne]
    have hRv : c.R ≤ v := le_trans (le_max_left _ _) (le_max_left _ _)
    have hGv : c.G ≤ v := le_trans (le_max_right _ _) (le_max_left _ _)
    have hBv : c.B ≤ v := le_max_right _ _
    have hmR : mn ≤ c.R := le_trans (min_le_left _ _) (min_le_left _ _)
    have hmG : mn ≤ c.G := le_trans (min_le_left _ _) (min_le_right _ _)
    have hmB : mn ≤ c.B := min_le_right _ _
    have hmv : mn ≤ v := le_trans hmB hBv
    have hC : 0 < v - mn := by
      rcases lt_or_eq_of_le hmv with h | h
      · linarith
      · exact absurd h hne
    by_cases hB : v = c.B
    · rw [if_pos hB]
      have e1 : (c.R - c.G) / (v - mn) + 4 ≤ 5 := by
        rw [div_add' _ _ _ hC.ne', div_le_iff₀ hC]
        linarith
      have e2 : 3 ≤ (c.R - c.G) / (v - mn) + 4 := by
        rw [div_add' _ _ _ hC.ne', le_div_iff₀ hC]
        linarith
      constructor
      · rw [if_neg (by nlinarith)]
        nlinarith
      · rw [if_neg (by nlinarith)]
        nlinarith
    · rw [if_neg hB]
      by_cases hG : v = c.G
      · rw [if_pos hG]
        have e1 : (c.B - c.R) / (v - mn) + 2 ≤ 3 := by
          rw [div_add' _ _ _ hC.ne', div_le_iff₀ hC]
          linarith
        have e2 : 1 ≤ (c.B - c.R) / (v - mn) + 2 := by
          rw [div_add' _ _ _ hC.ne', le_div_iff₀ hC]
          linarith
        constructor
        · rw [if_neg (by nlinarith)]
          nlinarith
        · rw [if_neg (by nlinarith)]
          nlinarith
      · have hR : v = c.R := by
          rcases max_choice (max c.R c.G) c.B with h | h
          · rcases max_choice c.R c.G with h' | h'
            · rw [hv, h, h']
            · exact absurd (h.trans h') hG
          · exact absurd (hv.trans h) hB
        rw [if_neg hG, if_pos hR]
        have hq1 : -1 ≤ (c.G - c.B) / (v - mn) := by
          rw [le_div_iff₀ hC]
          linarith
        have hq2 : (c.G - c.B) / (v - mn) ≤ 1 := by
          rw [div_le_iff₀ hC]
          linarith
        set q := (c.G - c.B) / (v - mn) with hqdef
        by_cases hq0 : 0 ≤ q
        · have hg : gomod q 6 = q := by
            have := gomod_eval (x := q) (y := 6) 0
              (div_nonneg hq0 (by norm_num))
              (by push_cast; exact div_nonneg hq0 (by norm_num))
              (by push_cast; rw [div_lt_iff₀ (by norm_num : (0:ℝ) < 6)]; linarith)
            simpa using this
          rw [hg]
          constructor
          · rw [if_neg (by nlinarith)]
            nlinarith
          · rw [if_neg (by nlinarith)]
            nlinarith
        · have hq0' : q < 0 := not_le.mp hq0
          have hg : gomod q 6 = q := by
            have hqd : q / 6 < 0 := div_neg_of_neg_of_pos hq0' (by norm_num)
            have := gomod_eval_neg (x := q) (y := 6) 0 (not_le.mpr hqd)
              (by push_cast; rw [lt_div_iff₀ (by norm_num : (0:ℝ) < 6)]; linarith)
              (by push_cast; rw [div_le_iff₀ (by norm_num : (0:ℝ) < 6)]; linarith)
            simpa using this
          rw [hg]
          have hlt : q * 60 < 0 := by nlinarith
          rw [if_pos hlt]
          constructor <;> nlinarith
  · simp only [if_neg hne]
    norm_num

/-- The forward HCL conversion always returns a hue in [0, 360). -/
lemma hclH_mem (c : Color) : 0 ≤ (Color.Hcl c).1 ∧ (Color.Hcl c).1 < 360 := by
  simp only [Color.Hcl, Color.HclWhiteRef]
  exact LabToHcl_h_mem _ _ _

/-- The forward LuvLCh conversion always returns a hue in [0, 360). -/
lemma luvLChH_mem (c : Color) : 0 ≤ (Color.LuvLCh c).2.2 ∧ (Color.LuvLCh c).2.2 < 360 := by
  simp only [Color.LuvLCh, Color.LuvLChWhiteRef]
  exact LuvToLuvLCh_h_mem _ _ _

/-- C7: AlmostEqualRgb holds exactly when the L1 distance of the RGB
channels is strictly below 3 times the tolerance Delta = 1/255; it always
holds between a color and itself, and it fails whenever every channel
differs by more than 1/255. -/
theorem C7_almostEqualRgb (c1 c2 : Color) :
    (c1.AlmostEqualRgb c2 ↔
      |c1.R - c2.R| + |c1.G - c2.G| + |c1.B - c2.B| < 3 * (1 / 255)) ∧
    c1.AlmostEqualRgb c1 ∧
    (1 / 255 < |c1.R - c2.R| → 1 / 255 < |c1.G - c2.G| →
      1 / 255 < |c1.B - c2.B| → ¬c1.AlmostEqualRgb c2) := by
  unfold Color.AlmostEqualRgb Delta
  refine ⟨Iff.rfl, by norm_num, ?_⟩
  intro h1 h2 h3 hcon
  linarith

/-- Witness for C7 at black versus white: every channel differs by 1, so
the colors are not almost equal. -/
theorem C7_almostEqualRgb_witness :
    ¬(Color.mk 0 0 0).AlmostEqualRgb (Color.mk 1 1 1) :=
  (C7_almostEqualRgb ⟨0, 0, 0⟩ ⟨1, 1, 1⟩).2.2 (by norm_num) (by norm_num) (by norm_num)

/-- C9: interp_angle computes delta as ((a1-a0) mod 360 + 540) mod 360 - 180
with the truncated Go remainder, scales it by t, adds a0, and wraps by a
final mod; in particular interpolating from 350 degrees to 10 degrees at
t = 0.5 yields 0, not 180. -/
theorem C9_interp_angle_shortest_path :
    (∀ a0 a1 t : ℝ, interp_angle a0 a1 t =
      gomod (a0 + t * (gomod (gomod (a1 - a0) 360 + 540) 360 - 180) + 360) 360) ∧
    interp_angle 350 10 0.5 = 0 := by
  refine ⟨fun a0 a1 t => rfl, ?_⟩
  have g1 : gomod (-340 : ℝ) 360 = -340 := by
    have := gomod_eval_neg (x := (-340:ℝ)) (y := 360) 0 (by norm_num) (by norm_num)
      (by norm_num)
    push_cast at this
    linarith
  have g2 : gomod (200 : ℝ) 360 = 200 := by
    have := gomod_eval (x := (200:ℝ)) (y := 360) 0 (by norm_num) (by norm_num)
      (by norm_num)
    push_cast at this
    linarith
  have g3 : gomod (720 : ℝ) 360 = 0 := by
    have := gomod_eval (x := (720:ℝ)) (y := 360) 2 (by norm_num) (by norm_num)
      (by norm_num)
    push_cast at this
    linarith
  show gomod (350 + 0.5 * (gomod (gomod (10 - 350) 360 + 540) 360 - 180) + 360) 360 = 0
  rw [show (10:ℝ) - 350 = -340 by norm_num, g1,
    show (-340 : ℝ) + 540 = 200 by norm_num, g2,
    show (350 : ℝ) + 0.5 * (200 - 180) + 360 = 720 by norm_num, g3]

/-- C8: converting black to xyY yields the D65 white chromaticity
(approximately 0.3127, 0.3290) with Y = 0, and in general, whenever
|X+Y+Z| < 1e-14, the division by the channel sum is not performed and the
reference white's own chromaticity is returned. -/
theorem C8_xyy_black_uses_white_chromaticity :
    (|(Color.mk 0 0 0).Xyy.1 - 0.3127| < 1e-4 ∧
     |(Color.mk 0 0 0).Xyy.2.1 - 0.3290| < 1e-4 ∧
     (Color.mk 0 0 0).Xyy.2.2 = 0) ∧
    (∀ (X Y Z : ℝ) (wref : ℝ × ℝ × ℝ), |X + Y + Z| < 1e-14 →
      XyzToXyyWhiteRef X Y Z wref =
        (wref.1 / (wref.1 + wref.2.1 + wref.2.2),
         wref.2.1 / (wref.1 + wref.2.1 + wref.2.2), Y)) := by
  constructor
  · norm_num [Color.Xyy, Color.Xyz, Color.LinearRgb, XyzToXyy, XyzToXyyWhiteRef,
      LinearRgbToXyz, linearize, D65, abs]
  · intro X Y Z wref h
    simp only [XyzToXyyWhiteRef]
    rw [if_pos h]

/-- Witness for C8's degenerate branch, instantiated at the origin with the
D50 reference white. -/
theorem C8_xyy_black_witness :
    XyzToXyyWhiteRef 0 0 0 D50 =
      (D50.1 / (D50.1 + D50.2.1 + D50.2.2),
       D50.2.1 / (D50.1 + D50.2.1 + D50.2.2), 0) :=
  C8_xyy_black_uses_white_chromaticity.2 0 0 0 D50 (by norm_num)

/-- C2 counterexample: the HSV inverse does not wrap hues; at hue 10 + 360
with full saturation and value it returns black instead of the color
produced at hue 10. -/
theorem C2_hsv_wrap_counterexample : Hsv (10 + 360) 1 1 ≠ Hsv 10 1 1 := by
  have h1 : (Hsv (10 + 360) 1 1).R = 0 := by
    norm_num [Hsv]
  have h2 : (Hsv 10 1 1).R = 1 := by
    norm_num [Hsv]
  intro hcon
  rw [hcon, h2] at h1
  norm_num at h1

/-- C2 amended: the cylindrical inverse conversions do not wrap the hue.
For any hue outside [0, 360), every sector guard of the HSV inverse fails
and it returns the achromatic color (m, m, m) with m = V - V*S. -/
theorem C2_hsv_out_of_range_hue (H S V : ℝ) (h : H < 0 ∨ 360 ≤ H) :
    Hsv H S V = ⟨V - V * S, V - V * S, V - V * S⟩ := by
  simp only [Hsv]
  have h6 : H / 60 < 0 ∨ 6 ≤ H / 60 := by
    rcases h with h | h
    · exact Or.inl (div_neg_of_neg_of_pos h (by norm_num))
    · right
      rw [le_div_iff₀ (by norm_num : (0:ℝ) < 60)]
      linarith
  have c1 : ¬(0 ≤ H / 60 ∧ H / 60 < 1) := by
    rcases h6 with h' | h' <;> (rintro ⟨ha, hb⟩; linarith)
  have c2 : ¬(1 ≤ H / 60 ∧ H / 60 < 2) := by
    rcases h6 with h' | h' <;> (rintro ⟨ha, hb⟩; linarith)
  have c3 : ¬(2 ≤ H / 60 ∧ H / 60 < 3) := by
    rcases h6 with h' | h' <;> (rintro ⟨ha, hb⟩; linarith)
  have c4 : ¬(3 ≤ H / 60 ∧ H / 60 < 4) := by
    rcases h6 with h' | h' <;> (rintro ⟨ha, hb⟩; linarith)
  have c5 : ¬(4 ≤ H / 60 ∧ H / 60 < 5) := by
    rcases h6 with h' | h' <;> (rintro ⟨ha, hb⟩; linarith)
  have c6 : ¬(5 ≤ H / 60 ∧ H / 60 < 6) := by
    rcases h6 with h' | h' <;> (rintro ⟨ha, hb⟩; linarith)
  rw [if_neg c1, if_neg c2, if_neg c3, if_neg c4, if_neg c5, if_neg c6]
  simp [Color.mk.injEq]

/-- Witness for the amended C2 statement at hue 370. -/
theorem C2_hsv_out_of_range_hue_witness :
    Hsv 370 1 1 = ⟨1 - 1 * 1, 1 - 1 * 1, 1 - 1 * 1⟩ :=
  C2_hsv_out_of_range_hue 370 1 1 (Or.inr (by norm_num))

/-- C10: interp_angle maps angles in [0,360] and t in [0,1] into [0,360),
and the hue each cylindrical blend passes to its inverse conversion is
always in [0,360), since every forward conversion produces a hue in
[0,360). -/
theorem C10_interp_angle_range :
    (∀ a0 a1 t : ℝ, 0 ≤ a0 → a0 ≤ 360 → 0 ≤ a1 → a1 ≤ 360 → 0 ≤ t → t ≤ 1 →
      0 ≤ interp_angle a0 a1 t ∧ interp_angle a0 a1 t < 360) ∧
    (∀ c1 c2 : Color, ∀ t : ℝ, 0 ≤ t → t ≤ 1 →
      (0 ≤ blendHsvHue c1 c2 t ∧ blendHsvHue c1 c2 t < 360) ∧
      (0 ≤ blendHclHue c1 c2 t ∧ blendHclHue c1 c2 t < 360) ∧
      (0 ≤ blendLuvLChHue c1 c2 t ∧ blendLuvLChHue c1 c2 t < 360)) := by
  constructor
  · intro a0 a1 t h1 h2 h3 h4 h5 h6
    exact interp_angle_mem h1 h2 h3 h4 h5 h6
  · intro c1 c2 t ht0 ht1
    have hh1 := hsvH_mem c1
    have hh2 := hsvH_mem c2
    have hc1 := hclH_mem c1
    have hc2 := hclH_mem c2
    have hl1 := luvLChH_mem c1
    have hl2 := luvLChH_mem c2
    refine ⟨?_, ?_, ?_⟩
    · simp only [blendHsvHue]
      split_ifs with h h'
      · exact interp_angle_mem hh2.1 hh2.2.le hh2.1 hh2.2.le ht0 ht1
      · exact interp_angle_mem hh1.1 hh1.2.le hh1.1 hh1.2.le ht0 ht1
      · exact interp_angle_mem hh1.1 hh1.2.le hh2.1 hh2.2.le ht0 ht1
    · simp only [blendHclHue]
      split_ifs with h h'
      · exact interp_angle_mem hc2.1 hc2.2.le hc2.1 hc2.2.le ht0 ht1
      · exact interp_angle_mem hc1.1 hc1.2.le hc1.1 hc1.2.le ht0 ht1
      · exact interp_angle_mem hc1.1 hc1.2.le hc2.1 hc2.2.le ht0 ht1
    · simp only [blendLuvLChHue]
      exact interp_angle_mem hl1.1 hl1.2.le hl2.1 hl2.2.le ht0 ht1

/-- Witness for C10 at the 350-to-10 interpolation and a concrete blend of
black and red at t = 0.5. -/
theorem C10_interp_angle_range_witness :
    (0 ≤ interp_angle 350 10 0.5 ∧ interp_angle 350 10 0.5 < 360) ∧
    ((0 ≤ blendHsvHue ⟨0, 0, 0⟩ ⟨1, 0, 0⟩ 0.5 ∧
      blendHsvHue ⟨0, 0, 0⟩ ⟨1, 0, 0⟩ 0.5 < 360) ∧
     (0 ≤ blendHclHue ⟨0, 0, 0⟩ ⟨1, 0, 0⟩ 0.5 ∧
      blendHclHue ⟨0, 0, 0⟩ ⟨1, 0, 0⟩ 0.5 < 360) ∧
     (0 ≤ blendLuvLChHue ⟨0, 0, 0⟩ ⟨1, 0, 0⟩ 0.5 ∧
      blendLuvLChHue ⟨0, 0, 0⟩ ⟨1, 0, 0⟩ 0.5 < 360)) :=
  ⟨C10_interp_angle_range.1 350 10 0.5 (by norm_num) (by norm_num) (by norm_num)
      (by norm_num) (by norm_num) (by norm_num),
   C10_interp_angle_range.2 ⟨0, 0, 0⟩ ⟨1, 0, 0⟩ 0.5 (by norm_num) (by norm_num)⟩

/-- Strict lower bound of a rational power via integer powers. -/
lemma lt_rpow_ratio {x a : ℝ} (n m : ℕ) (hn : n ≠ 0) (hx : 0 ≤ x) (ha : 0 ≤ a)
    (h : a ^ n < x ^ m) : a < x ^ ((m : ℝ) / n) := by
  have key : x ^ ((m : ℝ) / n) = (x ^ m : ℝ) ^ ((1 : ℝ) / n) := by
    rw [← Real.rpow_natCast x m, ← Real.rpow_mul hx]
    ring_nf
  have ha' : a = (a ^ n : ℝ) ^ ((1 : ℝ) / n) := by
    rw [← Real.rpow_natCast a n, ← Real.rpow_mul ha, mul_one_div,
      div_self (by exact_mod_cast hn), Real.rpow_one]
  rw [key, ha']
  exact Real.rpow_lt_rpow (pow_nonneg ha n) h (by positivity)

/-- Exponent 2.4 as a ratio of natural numbers. -/
lemma exp24_eq : (2.4 : ℝ) = ((12 : ℕ) : ℝ) / ((5 : ℕ) : ℝ) := by norm_num

/-- Exponent 1/2.4 as a ratio of natural numbers. -/
lemma exp512_eq : ((1 : ℝ) / 2.4) = ((5 : ℕ) : ℝ) / ((12 : ℕ) : ℝ) := by norm_num

/-- Composing the sRGB power branches forward then backward is the
identity on nonnegative inputs. -/
lemma rpow_collapse {x : ℝ} (hx : 0 ≤ x) : (x ^ (2.4 : ℝ)) ^ ((1 : ℝ) / 2.4) = x := by
  rw [← Real.rpow_mul hx]
  norm_num

/-- Composing the sRGB power branches backward then forward is the
identity on nonnegative inputs. -/
lemma rpow_collapse' {x : ℝ} (hx : 0 ≤ x) : (x ^ ((1 : ℝ) / 2.4)) ^ (2.4 : ℝ) = x := by
  rw [← Real.rpow_mul hx]
  norm_num

/-- On [0, 0.040449936] both branches are linear and the round trip through
linearize is exact. -/
lemma lin_roundtrip_low {v : ℝ} (h : v ≤ 0.040449936) :
    delinearize (linearize v) = v := by
  have e1 : linearize v = v / 12.92 := by
    unfold linearize
    rw [if_pos (by linarith)]
  rw [e1]
  unfold delinearize
  rw [if_pos (by rw [div_le_iff₀ (by norm_num : (0:ℝ) < 12.92)]; linarith)]
  field_simp

/-- Above the 0.04045 threshold the round trip through linearize is exact:
the companded value stays above the delinearize threshold. -/
lemma lin_roundtrip_high {v : ℝ} (h : 0.04045 < v) :
    delinearize (linearize v) = v := by
  have e1 : linearize v = ((v + 0.055) / 1.055) ^ (2.4 : ℝ) := by
    unfold linearize
    rw [if_neg (by linarith)]
  rw [e1]
  have hbase : (0:ℝ) ≤ (v + 0.055) / 1.055 := div_nonneg (by linarith) (by norm_num)
  have hgt : (0.0031308 : ℝ) < ((v + 0.055) / 1.055) ^ (2.4 : ℝ) := by
    have hb2 : (0.09545 : ℝ) / 1.055 ≤ (v + 0.055) / 1.055 := by
      apply div_le_div_of_nonneg_right ?_ (by norm_num)
      linarith
    calc (0.0031308 : ℝ) < ((0.09545 : ℝ) / 1.055) ^ (2.4 : ℝ) := by
          rw [exp24_eq]
          exact lt_rpow_ratio 5 12 (by norm_num) (by norm_num) (by norm_num) (by norm_num)
      _ ≤ ((v + 0.055) / 1.055) ^ (2.4 : ℝ) :=
          Real.rpow_le_rpow (by norm_num) hb2 (by norm_num)
  unfold delinearize
  rw [if_neg (not_le.mpr hgt), rpow_collapse hbase]
  have e2 : 1.055 * ((v + 0.055) / 1.055) = v + 0.055 := by
    field_simp
  linarith

/-- On [0, 0.0031308] both branches are linear and the round trip through
delinearize is exact. -/
lemma delin_roundtrip_low {v : ℝ} (h : v ≤ 0.0031308) :
    linearize (delinearize v) = v := by
  have e1 : delinearize v = 12.92 * v := by
    unfold delinearize
    rw [if_pos h]
  rw [e1]
  unfold linearize
  rw [if_pos (by linarith)]
  field_simp

/-- Above 0.0031312 the round trip through delinearize is exact: the
compressed value stays above the linearize threshold. -/
lemma delin_roundtrip_high {v : ℝ} (h : 0.0031312 < v) :
    linearize (delinearize v) = v := by
  have hv0 : (0:ℝ) ≤ v := by linarith
  have e1 : delinearize v = 1.055 * v ^ ((1:ℝ) / 2.4) - 0.055 := by
    unfold delinearize
    rw [if_neg (by push_neg; linarith)]
  rw [e1]
  have hs : (0.0904745 : ℝ) ≤ v ^ ((1:ℝ) / 2.4) := by
    rw [exp512_eq]
    apply le_rpow_ratio 12 5 (by norm_num) hv0 (by norm_num)
    calc (0.0904745 : ℝ) ^ 12 ≤ (0.0031312 : ℝ) ^ 5 := by norm_num
      _ ≤ v ^ 5 := pow_le_pow_left₀ (by norm_num) h.le 5
  unfold linearize
  rw [if_neg (by push_neg; nlinarith)]
  have e2 : (1.055 * v ^ ((1:ℝ) / 2.4) - 0.055 + 0.055) / 1.055 = v ^ ((1:ℝ) / 2.4) := by
    field_simp
  rw [e2, rpow_collapse' hv0]

/-- On the threshold-mismatch sliver of linearize the round trip is inexact
but stays within 1e-4. -/
lemma lin_roundtrip_sliver {v : ℝ} (hlo : 0.040449936 < v) (hhi : v ≤ 0.04045) :
    |delinearize (linearize v) - v| < 1e-4 := by
  have e1 : linearize v = v / 12.92 := by
    unfold linearize
    rw [if_pos hhi]
  rw [e1]
  have hw1 : (0.0031308 : ℝ) < v / 12.92 := by
    rw [lt_div_iff₀ (by norm_num : (0:ℝ) < 12.92)]
    linarith
  have hw2 : v / 12.92 ≤ 0.04045 / 12.92 :=
    div_le_div_of_nonneg_right hhi (by norm_num)
  unfold delinearize
  rw [if_neg (not_le.mpr hw1)]
  have hb : (0.09046 : ℝ) ≤ (v / 12.92) ^ ((1:ℝ) / 2.4) ∧
      (v / 12.92) ^ ((1:ℝ) / 2.4) ≤ 0.09048 := by
    rw [exp512_eq]
    exact rpow_ratio_bounds 12 5 (by norm_num) (by norm_num) hw1.le hw2
      (by norm_num) (by norm_num) (by norm_num) (by norm_num)
  rw [abs_lt]
  constructor
  · nlinarith [hb.1]
  · nlinarith [hb.2]

/-- On the threshold-mismatch sliver of delinearize the round trip is
inexact but stays within 1e-4. -/
lemma delin_roundtrip_sliver {v : ℝ} (hlo : 0.0031308 < v) (hhi : v ≤ 0.0031312) :
    |linearize (delinearize v) - v| < 1e-4 := by
  have hv0 : (0:ℝ) ≤ v := by linarith
  have e1 : delinearize v = 1.055 * v ^ ((1:ℝ) / 2.4) - 0.055 := by
    unfold delinearize
    rw [if_neg (by push_neg; linarith)]
  rw [e1]
  have hs : (0.09046 : ℝ) ≤ v ^ ((1:ℝ) / 2.4) := by
    rw [exp512_eq]
    apply le_rpow_ratio 12 5 (by norm_num) hv0 (by norm_num)
    calc (0.09046 : ℝ) ^ 12 ≤ (0.0031308 : ℝ) ^ 5 := by norm_num
      _ ≤ v ^ 5 := pow_le_pow_left₀ (by norm_num) hlo.le 5
  by_cases hcase : 1.055 * v ^ ((1:ℝ) / 2.4) - 0.055 ≤ 0.04045
  · unfold linearize
    rw [if_pos hcase, abs_lt]
    have hkey : (1.055 * v ^ ((1:ℝ) / 2.4) - 0.055) / 12.92 - v
        = (1.055 * v ^ ((1:ℝ) / 2.4) - 0.055 - 12.92 * v) / 12.92 := by ring
    rw [hkey]
    constructor
    · rw [lt_div_iff₀ (by norm_num : (0:ℝ) < 12.92)]
      nlinarith
    · rw [div_lt_iff₀ (by norm_num : (0:ℝ) < 12.92)]
      nlinarith
  · unfold linearize
    rw [if_neg hcase]
    have e2 : (1.055 * v ^ ((1:ℝ) / 2.4) - 0.055 + 0.055) / 1.055 = v ^ ((1:ℝ) / 2.4) := by
      field_simp
    rw [e2, rpow_collapse' hv0]
    norm_num

/-- C5 amended: on [0,1] each composition of linearize and delinearize is
the identity except on a narrow branch-threshold mismatch sliver, and even
there the round trip differs from the identity by less than 1e-4. -/
theorem C5_linearize_delinearize_inverse (v : ℝ) (h0 : 0 ≤ v) (h1 : v ≤ 1) :
    |delinearize (linearize v) - v| < 1e-4 ∧
    |linearize (delinearize v) - v| < 1e-4 ∧
    (v ≤ 0.040449936 ∨ 0.04045 < v → delinearize (linearize v) = v) ∧
    (v ≤ 0.0031308 ∨ 0.0031312 < v → linearize (delinearize v) = v) := by
  refine ⟨?_, ?_, ?_, ?_⟩
  · by_cases hA : v ≤ 0.040449936
    · rw [lin_roundtrip_low hA]
      norm_num
    · by_cases hB : v ≤ 0.04045
      · exact lin_roundtrip_sliver (not_le.mp hA) hB
      · rw [lin_roundtrip_high (not_le.mp hB)]
        norm_num
  · by_cases hA : v ≤ 0.0031308
    · rw [delin_roundtrip_low hA]
      norm_num
    · by_cases hB : v ≤ 0.0031312
      · exact delin_roundtrip_sliver (not_le.mp hA) hB
      · rw [delin_roundtrip_high (not_le.mp hB)]
        norm_num
  · rintro (h | h)
    · exact lin_roundtrip_low h
    · exact lin_roundtrip_high h
  · rintro (h | h)
    · exact delin_roundtrip_low h
    · exact delin_roundtrip_high h

/-- Witness for the amended C5 statement at v = 0.5. -/
theorem C5_linearize_delinearize_inverse_witness :
    |delinearize (linearize 0.5) - 0.5| < 1e-4 ∧ linearize (delinearize 0.5) = 0.5 :=
  ⟨(C5_linearize_delinearize_inverse 0.5 (by norm_num) (by norm_num)).1,
   (C5_linearize_delinearize_inverse 0.5 (by norm_num) (by norm_num)).2.2.2
     (Or.inr (by norm_num))⟩

/-- C5 counterexample: at v = 0.04045 the two piecewise thresholds mismatch
and the round trip through linearize is not exact. -/
theorem C5_exact_inverse_counterexample :
    delinearize (linearize 0.04045) ≠ 0.04045 := by
  have e1 : linearize 0.04045 = 0.04045 / 12.92 := by
    unfold linearize
    rw [if_pos (by norm_num)]
  rw [e1]
  unfold delinearize
  rw [if_neg (by norm_num)]
  have hlt : ((0.04045 : ℝ) / 12.92) ^ ((1:ℝ) / 2.4) < 0.09545 / 1.055 := by
    rw [exp512_eq]
    exact rpow_ratio_lt 12 5 (by norm_num) (by norm_num) (by norm_num) (by norm_num)
  intro hcon
  nlinarith [hlt]

/-- sq is nonnegative. -/
lemma sq_nonneg' (v : ℝ) : 0 ≤ sq v := mul_self_nonneg v

/-- sq as a Mathlib square. -/
lemma sq_eq_pow (v : ℝ) : sq v = v ^ 2 := by
  unfold sq
  ring

/-- XYZ coordinates of pure red, exact since linearize is exact at 0 and 1. -/
lemma red_xyz : (Color.mk 1 0 0).Xyz =
    (0.41239079926595948, 0.21263900587151036, 0.019330818715591851) := by
  simp only [Color.Xyz, Color.LinearRgb, LinearRgbToXyz, linearize]
  norm_num

/-- L*a*b* coordinates of black are exactly zero. -/
lemma black_lab : (Color.mk 0 0 0).Lab = (0, 0, 0) := by
  simp only [Color.Lab, Color.Xyz, Color.LinearRgb, XyzToLab, XyzToLabWhiteRef,
    LinearRgbToXyz, linearize, lab_f, D65]
  norm_num

/-- HCL coordinates of black are exactly zero. -/
lemma black_hcl : (Color.mk 0 0 0).Hcl = (0, 0, 0) := by
  have hb : (Color.mk 0 0 0).LabWhiteRef D65 = (0, 0, 0) := by
    simp only [Color.LabWhiteRef, Color.Xyz, Color.LinearRgb, XyzToLabWhiteRef,
      LinearRgbToXyz, linearize, lab_f, D65]
    norm_num
  simp only [Color.Hcl, Color.HclWhiteRef, hb, LabToHcl, sq]
  norm_num

/-- LuvLCh coordinates of black are exactly zero. -/
lemma black_luvlch : (Color.mk 0 0 0).LuvLCh = (0, 0, 0) := by
  simp only [Color.LuvLCh, Color.LuvLChWhiteRef, Color.LuvWhiteRef, Color.Xyz,
    Color.LinearRgb, XyzToLuvWhiteRef, LinearRgbToXyz, linearize, xyz_to_uv,
    LuvToLuvLCh, D65, sq]
  norm_num

/-- Saturation facts for black and red in HSV: black is exactly gray, red
is fully saturated. -/
lemma hsv_s_black_red :
    ((Color.mk 0 0 0).Hsv).2.1 = 0 ∧ ((Color.mk 1 0 0).Hsv).2.1 = 1 := by
  constructor
  · simp only [Color.Hsv]
    norm_num
  · simp only [Color.Hsv]
    norm_num

/-- Chroma of pure red in HCL is strictly above the 1.5e-4 gray threshold. -/
lemma red_hcl_c_gt : 0.00015 < ((Color.mk 1 0 0).Hcl).2.1 := by
  have hxyz := red_xyz
  simp only [Color.Hcl, Color.HclWhiteRef, Color.LabWhiteRef]
  rw [hxyz]
  simp only [XyzToLabWhiteRef, LabToHcl, D65]
  have hfx : 0.757 ≤ cbrt ((0.41239079926595948 : ℝ) / 0.95047) ∧
      cbrt ((0.41239079926595948 : ℝ) / 0.95047) ≤ 0.758 :=
    cbrt_bounds (by norm_num) (by norm_num) (by norm_num) (by norm_num) (by norm_num)
  have hfy : 0.5968 ≤ cbrt ((0.21263900587151036 : ℝ) / 1) ∧
      cbrt ((0.21263900587151036 : ℝ) / 1) ≤ 0.5969 :=
    cbrt_bounds (by norm_num) (by norm_num) (by norm_num) (by norm_num) (by norm_num)
  rw [show lab_f ((0.41239079926595948 : ℝ) / 0.95047) =
        cbrt ((0.41239079926595948 : ℝ) / 0.95047) by
      unfold lab_f; rw [if_pos (by norm_num)],
    show lab_f ((0.21263900587151036 : ℝ) / 1) =
        cbrt ((0.21263900587151036 : ℝ) / 1) by
      unfold lab_f; rw [if_pos (by norm_num)]]
  set fx := cbrt ((0.41239079926595948 : ℝ) / 0.95047)
  set fy := cbrt ((0.21263900587151036 : ℝ) / 1)
  have ha : 0.75 ≤ 5 * (fx - fy) := by nlinarith [hfx.1, hfx.2, hfy.1, hfy.2]
  have hsq : sq (5 * (fx - fy)) = (5 * (fx - fy)) ^ 2 := by
    rw [sq]
    ring
  calc (0.00015 : ℝ) < 5 * (fx - fy) := by linarith
    _ = Real.sqrt ((5 * (fx - fy)) ^ 2) := (Real.sqrt_sq (by linarith)).symm
    _ ≤ Real.sqrt (sq (5 * (fx - fy)) + sq (2 * (fy - lab_f (0.019330818715591851 / 1.08883)))) := by
        apply Real.sqrt_le_sqrt
        rw [hsq]
        linarith [sq_nonneg' (2 * (fy - lab_f (0.019330818715591851 / 1.08883)))]

/-- Bounds for the u and v coordinates of pure red in L*u*v* space. -/
lemma red_luv_uv_bounds :
    1 ≤ ((Color.mk 1 0 0).Luv).2.1 ∧ ((Color.mk 1 0 0).Luv).2.1 ≤ 2 ∧
    0.3 ≤ ((Color.mk 1 0 0).Luv).2.2 ∧ ((Color.mk 1 0 0).Luv).2.2 ≤ 0.4 := by
  have hxyz := red_xyz
  simp only [Color.Luv, XyzToLuv]
  rw [hxyz]
  simp only [XyzToLuvWhiteRef, xyz_to_uv, D65]
  rw [if_neg (show ¬((0.21263900587151036 : ℝ) / 1 ≤ 6 / 29 * 6 / 29 * 6 / 29) by norm_num),
    if_neg (show ¬((0.41239079926595948 : ℝ) + 15 * 0.21263900587151036 +
      3 * 0.019330818715591851 = 0) by norm_num),
    if_neg (show ¬((0.95047 : ℝ) + 15 * 1 + 3 * 1.08883 = 0) by norm_num)]
  have hfy : 0.5968 ≤ cbrt ((0.21263900587151036 : ℝ) / 1) ∧
      cbrt ((0.21263900587151036 : ℝ) / 1) ≤ 0.5969 :=
    cbrt_bounds (by norm_num) (by norm_num) (by norm_num) (by norm_num) (by norm_num)
  refine ⟨?_, ?_, ?_, ?_⟩ <;> nlinarith [hfy.1, hfy.2]

/-- Facts about LuvToLuvLCh for coordinates in the range produced by pure
red: the chroma is far above the gray threshold and the hue lies in
(0, 91). -/
lemma luvToLuvLCh_facts {L u v : ℝ} (hu1 : 1 ≤ u) (hu2 : u ≤ 2)
    (hv1 : 0.3 ≤ v) (hv2 : v ≤ 0.4) :
    0.00015 ≤ (LuvToLuvLCh L u v).2.1 ∧
    0 < (LuvToLuvLCh L u v).2.2 ∧ (LuvToLuvLCh L u v).2.2 < 91 := by
  have hu0 : 0 < u := by linarith
  have hv0 : 0 < v := by linarith
  have hcond : |v - u| > 1e-4 ∧ |u| > 1e-4 := by
    constructor
    · rw [abs_sub_comm]
      calc (1e-4 : ℝ) < u - v := by linarith
        _ ≤ |u - v| := le_abs_self _
    · rw [abs_of_pos hu0]
      linarith
  simp only [LuvToLuvLCh]
  rw [if_pos hcond]
  obtain ⟨hθ1, hθ2⟩ := atan2_pos_bounds hu0 hv0
  have hk : (0:ℝ) < 57.29577951308232087721 * atan2 v u :=
    mul_pos (by norm_num) hθ1
  have hklt : 57.29577951308232087721 * atan2 v u < 91 := by
    have hpi : π < 3.1416 := Real.pi_lt_d4
    nlinarith
  have hh : gomod (57.29577951308232087721 * atan2 v u + 360) 360 =
      57.29577951308232087721 * atan2 v u :=
    gomod_add_period hk.le (by linarith)
  refine ⟨?_, ?_, ?_⟩
  · calc (0.00015 : ℝ) ≤ u := by linarith
      _ = Real.sqrt (u ^ 2) := (Real.sqrt_sq hu0.le).symm
      _ ≤ Real.sqrt (sq u + sq v) := by
          apply Real.sqrt_le_sqrt
          rw [sq_eq_pow]
          linarith [sq_nonneg' v]
  · rw [hh]
    exact hk
  · rw [hh]
    exact hklt

/-- Chroma and hue facts for pure red in LuvLCh. -/
lemma red_luvlch_facts :
    0.00015 ≤ ((Color.mk 1 0 0).LuvLCh).2.1 ∧
    0 < ((Color.mk 1 0 0).LuvLCh).2.2 ∧ ((Color.mk 1 0 0).LuvLCh).2.2 < 91 := by
  have hb := red_luv_uv_bounds
  have key : (Color.mk 1 0 0).LuvLCh =
      LuvToLuvLCh ((Color.mk 1 0 0).Luv).1 ((Color.mk 1 0 0).Luv).2.1
        ((Color.mk 1 0 0).Luv).2.2 := rfl
  rw [key]
  exact luvToLuvLCh_facts hb.1 hb.2.1 hb.2.2.1 hb.2.2.2

/-- interp_angle from 0 to an angle below 180 at t = 0.5 halves the angle. -/
lemma interp_angle_zero_half {h2 : ℝ} (h0 : 0 ≤ h2) (h1 : h2 < 180) :
    interp_angle 0 h2 0.5 = 0.5 * h2 := by
  simp only [interp_angle, sub_zero]
  have g1 : gomod h2 360 = h2 := by
    have := gomod_eval (x := h2) (y := 360) 0 (div_nonneg h0 (by norm_num))
      (by push_cast; exact div_nonneg h0 (by norm_num))
      (by push_cast; rw [div_lt_iff₀ (by norm_num : (0:ℝ) < 360)]; linarith)
    simpa using this
  rw [g1]
  have g2 : gomod (h2 + 540) 360 = h2 + 180 := by
    have := gomod_eval (x := h2 + 540) (y := 360) 1
      (div_nonneg (by linarith) (by norm_num))
      (by rw [le_div_iff₀ (by norm_num : (0:ℝ) < 360)]; push_cast; linarith)
      (by rw [div_lt_iff₀ (by norm_num : (0:ℝ) < 360)]; push_cast; linarith)
    push_cast at this
    linarith [this]
  rw [g2, show (0:ℝ) + 0.5 * (h2 + 180 - 180) + 360 = 0.5 * h2 + 360 by ring]
  exact gomod_add_period (by linarith) (by linarith)

/-- C3 counterexample: BlendLuvLCh performs no gray-endpoint hue
substitution. Black has chroma exactly 0 and red has nonzero chroma, yet
the hue passed to the inverse at t = 0.5 is half of red's hue, not red's
hue. -/
theorem C3_luvlch_no_substitution_counterexample :
    ((Color.mk 0 0 0).LuvLCh).2.1 = 0 ∧
    ((Color.mk 1 0 0).LuvLCh).2.1 ≠ 0 ∧
    blendLuvLChHue ⟨0, 0, 0⟩ ⟨1, 0, 0⟩ 0.5 ≠ ((Color.mk 1 0 0).LuvLCh).2.2 := by
  obtain ⟨hc, hh0, hh91⟩ := red_luvlch_facts
  refine ⟨by rw [black_luvlch], ?_, ?_⟩
  · intro hcon
    rw [hcon] at hc
    norm_num at hc
  · have hb : ((Color.mk 0 0 0).LuvLCh).2.2 = 0 := by rw [black_luvlch]
    simp only [blendLuvLChHue]
    rw [hb, interp_angle_zero_half hh0.le (by linarith)]
    intro hcon
    linarith

/-- C3 amended: only BlendHsv and BlendHcl substitute the gray endpoint's
hue, in either direction. BlendHsv does so when one endpoint's saturation
is exactly zero and the other's is nonzero; BlendHcl when one chroma is at
most 1.5e-4 and the other at least 1.5e-4 (strictly, for the second
endpoint gray). In every such case the hue passed to the inverse equals
the non-gray endpoint's hue for every t. BlendLuvLCh has no such
substitution. -/
theorem C3_blend_hue_substitution :
    (∀ c1 c2 : Color, ∀ t : ℝ,
      (c1.Hsv).2.1 = 0 → (c2.Hsv).2.1 ≠ 0 → blendHsvHue c1 c2 t = (c2.Hsv).1) ∧
    (∀ c1 c2 : Color, ∀ t : ℝ,
      (c2.Hsv).2.1 = 0 → (c1.Hsv).2.1 ≠ 0 → blendHsvHue c1 c2 t = (c1.Hsv).1) ∧
    (∀ c1 c2 : Color, ∀ t : ℝ,
      (c1.Hcl).2.1 ≤ 0.00015 → (c2.Hcl).2.1 ≥ 0.00015 →
        blendHclHue c1 c2 t = (c2.Hcl).1) ∧
    (∀ c1 c2 : Color, ∀ t : ℝ,
      (c2.Hcl).2.1 ≤ 0.00015 → 0.00015 < (c1.Hcl).2.1 →
        blendHclHue c1 c2 t = (c1.Hcl).1) := by
  refine ⟨?_, ?_, ?_, ?_⟩
  · intro c1 c2 t hs1 hs2
    have hh2 := hsvH_mem c2
    simp only [blendHsvHue]
    rw [if_pos ⟨hs1, hs2⟩]
    exact interp_angle_self _ _ hh2.1 hh2.2
  · intro c1 c2 t hs2 hs1
    have hh1 := hsvH_mem c1
    simp only [blendHsvHue]
    rw [if_neg (by rintro ⟨-, h⟩; exact h hs2), if_pos ⟨hs2, hs1⟩]
    exact interp_angle_self _ _ hh1.1 hh1.2
  · intro c1 c2 t h1 h2
    have hh2 := hclH_mem c2
    simp only [blendHclHue]
    rw [if_pos ⟨h1, h2⟩]
    exact interp_angle_self _ _ hh2.1 hh2.2
  · intro c1 c2 t h2 h1
    have hh1 := hclH_mem c1
    simp only [blendHclHue]
    rw [if_neg (by rintro ⟨ha, -⟩; linarith), if_pos ⟨h2, h1.le⟩]
    exact interp_angle_self _ _ hh1.1 hh1.2

/-- Witness for the amended C3 statement with black and red endpoints, in
both orders, at t = 0.5. -/
theorem C3_blend_hue_substitution_witness :
    blendHsvHue ⟨0, 0, 0⟩ ⟨1, 0, 0⟩ 0.5 = ((Color.mk 1 0 0).Hsv).1 ∧
    blendHsvHue ⟨1, 0, 0⟩ ⟨0, 0, 0⟩ 0.5 = ((Color.mk 1 0 0).Hsv).1 ∧
    blendHclHue ⟨0, 0, 0⟩ ⟨1, 0, 0⟩ 0.5 = ((Color.mk 1 0 0).Hcl).1 ∧
    blendHclHue ⟨1, 0, 0⟩ ⟨0, 0, 0⟩ 0.5 = ((Color.mk 1 0 0).Hcl).1 :=
  ⟨C3_blend_hue_substitution.1 ⟨0, 0, 0⟩ ⟨1, 0, 0⟩ 0.5 hsv_s_black_red.1
      (by rw [hsv_s_black_red.2]; norm_num),
   C3_blend_hue_substitution.2.1 ⟨1, 0, 0⟩ ⟨0, 0, 0⟩ 0.5 hsv_s_black_red.1
      (by rw [hsv_s_black_red.2]; norm_num),
   C3_blend_hue_substitution.2.2.1 ⟨0, 0, 0⟩ ⟨1, 0, 0⟩ 0.5
      (by rw [black_hcl]; norm_num) red_hcl_c_gt.le,
   C3_blend_hue_substitution.2.2.2 ⟨1, 0, 0⟩ ⟨0, 0, 0⟩ 0.5
      (by rw [black_hcl]; norm_num) red_hcl_c_gt⟩

/-- The a component of pure red in L*a*b* is well above zero. -/
lemma red_lab_a_pos : 0.75 ≤ ((Color.mk 1 0 0).Lab).2.1 := by
  have hxyz := red_xyz
  simp only [Color.Lab, XyzToLab]
  rw [hxyz]
  simp only [XyzToLabWhiteRef, D65]
  have hfx : 0.757 ≤ cbrt ((0.41239079926595948 : ℝ) / 0.95047) ∧
      cbrt ((0.41239079926595948 : ℝ) / 0.95047) ≤ 0.758 :=
    cbrt_bounds (by norm_num) (by norm_num) (by norm_num) (by norm_num) (by norm_num)
  have hfy : 0.5968 ≤ cbrt ((0.21263900587151036 : ℝ) / 1) ∧
      cbrt ((0.21263900587151036 : ℝ) / 1) ≤ 0.5969 :=
    cbrt_bounds (by norm_num) (by norm_num) (by norm_num) (by norm_num) (by norm_num)
  rw [show lab_f ((0.41239079926595948 : ℝ) / 0.95047) =
        cbrt ((0.41239079926595948 : ℝ) / 0.95047) by
      unfold lab_f; rw [if_pos (by norm_num)],
    show lab_f ((0.21263900587151036 : ℝ) / 1) =
        cbrt ((0.21263900587151036 : ℝ) / 1) by
      unfold lab_f; rw [if_pos (by norm_num)]]
  nlinarith [hfx.1, hfx.2, hfy.1, hfy.2]

/-- C6 counterexample: DistanceCIE94 is not symmetric, because its
weighting functions use only the first color's chroma. Swapping pure red
and black changes the result. -/
theorem C6_cie94_asymmetry_counterexample :
    (Color.mk 1 0 0).DistanceCIE94 (Color.mk 0 0 0) ≠
    (Color.mk 0 0 0).DistanceCIE94 (Color.mk 1 0 0) := by
  have hA := red_lab_a_pos
  simp only [Color.DistanceCIE94]
  rw [black_lab]
  dsimp only
  norm_num [sq_eq_pow]
  set S := (((Color.mk 1 0 0).Lab).2.1 * 100) ^ 2 +
    (((Color.mk 1 0 0).Lab).2.2 * 100) ^ 2 with hSdef
  have hS0 : 0 ≤ S := by positivity
  have hSpos : 0 < S := by nlinarith [sq_nonneg (((Color.mk 1 0 0).Lab).2.2 * 100)]
  have hC2 : Real.sqrt S ^ 2 = S := Real.sq_sqrt hS0
  rw [hC2]
  simp only [sub_self, zero_div, add_zero]
  have hCpos : 0 < Real.sqrt S := Real.sqrt_pos.mpr hSpos
  intro hcon
  have hden : (1:ℝ) < 1 + 9 / 200 * Real.sqrt S := by nlinarith
  have hdiv : Real.sqrt S / (1 + 9 / 200 * Real.sqrt S) < Real.sqrt S :=
    div_lt_self hCpos hden
  have hdivnn : 0 ≤ Real.sqrt S / (1 + 9 / 200 * Real.sqrt S) :=
    div_nonneg hCpos.le (by linarith)
  have hsqlt : (Real.sqrt S / (1 + 9 / 200 * Real.sqrt S)) ^ 2 < S := by
    calc (Real.sqrt S / (1 + 9 / 200 * Real.sqrt S)) ^ 2 < Real.sqrt S ^ 2 := by
          exact pow_lt_pow_left hdiv hdivnn (by norm_num)
      _ = S := hC2
  have heq := (Real.sqrt_inj (by positivity) (by positivity)).mp hcon
  nlinarith [heq, hsqlt]

/-- The CIEDE2000 G factor is symmetric in the two chromas. -/
lemma ciedeG_symm (cab1 cab2 : ℝ) : ciedeG cab2 cab1 = ciedeG cab1 cab2 := by
  unfold ciedeG
  rw [add_comm cab2 cab1]

/-- The wrapped primed-hue difference is antisymmetric under swapping the
colors. -/
lemma ciedeDhp_swap (cp1 cp2 hp1 hp2 : ℝ) :
    ciedeDhp cp2 cp1 hp2 hp1 = -ciedeDhp cp1 cp2 hp1 hp2 := by
  unfold ciedeDhp
  rw [mul_comm cp2 cp1]
  split_ifs <;> linarith

/-- The wrapped mean hue is symmetric under swapping the colors. -/
lemma ciedeHpmean_swap (cp1 cp2 hp1 hp2 : ℝ) :
    ciedeHpmean cp2 cp1 hp2 hp1 = ciedeHpmean cp1 cp2 hp1 hp2 := by
  unfold ciedeHpmean
  rw [mul_comm cp2 cp1, abs_sub_comm hp2 hp1, add_comm hp2 hp1]

/-- The CIEDE2000 combination step is symmetric: the three difference
terms are squared and the cross term multiplies two sign flips. -/
lemma ciedeTail_swap (kl kc kh l1 cp1 hp1 l2 cp2 hp2 : ℝ) :
    ciedeTail kl kc kh l2 cp2 hp2 l1 cp1 hp1 =
    ciedeTail kl kc kh l1 cp1 hp1 l2 cp2 hp2 := by
  simp only [ciedeTail]
  rw [ciedeDhp_swap, ciedeHpmean_swap, mul_comm cp2 cp1, add_comm l2 l1,
    add_comm cp2 cp1]
  rw [show -ciedeDhp cp1 cp2 hp1 hp2 / 2 * π / 180 =
      -(ciedeDhp cp1 cp2 hp1 hp2 / 2 * π / 180) by ring, Real.sin_neg]
  simp only [sq_eq_pow]
  congr 1
  congr 1
  ring

/-- DistanceCIEDE2000klch is symmetric for any weights. -/
lemma ciede2000klch_symm (c1 c2 : Color) (kl kc kh : ℝ) :
    c2.DistanceCIEDE2000klch c1 kl kc kh = c1.DistanceCIEDE2000klch c2 kl kc kh := by
  simp only [Color.DistanceCIEDE2000klch]
  conv_lhs => rw [ciedeG_symm]
  exact ciedeTail_swap _ _ _ _ _ _ _ _ _

/-- The wrapped primed-hue difference of a color with itself is zero. -/
lemma ciedeDhp_self (cp hp : ℝ) : ciedeDhp cp cp hp hp = 0 := by
  unfold ciedeDhp
  split_ifs <;> linarith

/-- C6 amended: all six distance metrics are nonnegative and vanish on
equal inputs, and all of them except DistanceCIE94 are symmetric;
DistanceCIE94 weights by the first color's chroma and is asymmetric. -/
theorem C6_distance_metric_properties :
    (∀ c1 c2 : Color,
      c1.DistanceRgb c2 = c2.DistanceRgb c1 ∧
      c1.DistanceLinearRgb c2 = c2.DistanceLinearRgb c1 ∧
      c1.DistanceRiemersma c2 = c2.DistanceRiemersma c1 ∧
      c1.DistanceLab c2 = c2.DistanceLab c1 ∧
      c1.DistanceCIE76 c2 = c2.DistanceCIE76 c1 ∧
      c1.DistanceCIEDE2000 c2 = c2.DistanceCIEDE2000 c1) ∧
    (∀ c1 c2 : Color,
      0 ≤ c1.DistanceRgb c2 ∧ 0 ≤ c1.DistanceLinearRgb c2 ∧
      0 ≤ c1.DistanceRiemersma c2 ∧ 0 ≤ c1.DistanceLab c2 ∧
      0 ≤ c1.DistanceCIE94 c2 ∧ 0 ≤ c1.DistanceCIEDE2000 c2) ∧
    (∀ c : Color,
      c.DistanceRgb c = 0 ∧ c.DistanceLinearRgb c = 0 ∧
      c.DistanceRiemersma c = 0 ∧ c.DistanceLab c = 0 ∧
      c.DistanceCIE94 c = 0 ∧ c.DistanceCIEDE2000 c = 0) := by
  refine ⟨fun c1 c2 => ⟨?_, ?_, ?_, ?_, ?_, ?_⟩,
    fun c1 c2 => ⟨?_, ?_, ?_, ?_, ?_, ?_⟩, fun c => ⟨?_, ?_, ?_, ?_, ?_, ?_⟩⟩
  · simp only [Color.DistanceRgb, sq_eq_pow]
    congr 1
    ring
  · simp only [Color.DistanceLinearRgb, sq_eq_pow]
    congr 1
    ring
  · simp only [Color.DistanceRiemersma]
    congr 1
    ring
  · simp only [Color.DistanceLab, sq_eq_pow]
    congr 1
    ring
  · simp only [Color.DistanceCIE76, Color.DistanceLab, sq_eq_pow]
    congr 1
    ring
  · simp only [Color.DistanceCIEDE2000]
    exact ciede2000klch_symm c2 c1 1 1 1
  · exact Real.sqrt_nonneg _
  · exact Real.sqrt_nonneg _
  · exact Real.sqrt_nonneg _
  · exact Real.sqrt_nonneg _
  · exact mul_nonneg (Real.sqrt_nonneg _) (by norm_num)
  · exact mul_nonneg (Real.sqrt_nonneg _) (by norm_num)
  · simp only [Color.DistanceRgb]
    norm_num [sq_eq_pow, Real.sqrt_zero]
  · simp only [Color.DistanceLinearRgb]
    norm_num [sq_eq_pow, Real.sqrt_zero]
  · simp only [Color.DistanceRiemersma]
    norm_num [Real.sqrt_eq_zero']
  · simp only [Color.DistanceLab]
    norm_num [sq_eq_pow, Real.sqrt_zero]
  · simp only [Color.DistanceCIE94]
    norm_num [sq_eq_pow, Real.sqrt_zero]
  · simp only [Color.DistanceCIEDE2000, Color.DistanceCIEDE2000klch, ciedeTail]
    rw [ciedeDhp_self]
    norm_num [sq_eq_pow, Real.sqrt_zero]

/-- LabToHcl forces the hue to zero whenever |a| is at most 1e-4, no
matter how large b is. -/
lemma labToHcl_forced_hue {L a b : ℝ} (ha : |a| ≤ 1e-4) : (LabToHcl L a b).1 = 0 := by
  simp only [LabToHcl]
  rw [if_neg]
  rintro ⟨-, h2⟩
  exact absurd h2 (not_lt.mpr ha)

/-- Lower-bounds the polar chroma by a lower bound of b. -/
lemma chroma_lower {a b k : ℝ} (hk : 0 ≤ k) (hb : k ≤ b) :
    k ≤ Real.sqrt (sq a + sq b) := by
  calc k ≤ b := hb
    _ = Real.sqrt (b ^ 2) := (Real.sqrt_sq (hk.trans hb)).symm
    _ ≤ Real.sqrt (sq a + sq b) := by
        apply Real.sqrt_le_sqrt
        simp only [sq_eq_pow]
        nlinarith [sq_nonneg a]

/-- clamp01 preserves a lower bound that is at most 1. -/
lemma clamp01_lower {x k : ℝ} (hk : k ≤ 1) (h : k ≤ x) : k ≤ clamp01 x := by
  unfold clamp01
  exact le_trans (le_min h hk) (le_max_right _ _)

/-- delinearize of anything at least 0.2311 is at least 0.5. -/
lemma delin_ge_half {w : ℝ} (hw : 0.2311 ≤ w) : 0.5 ≤ delinearize w := by
  unfold delinearize
  rw [if_neg (not_le.mpr (by linarith))]
  have h0 : (0 : ℝ) ≤ w := by linarith
  have hr : (0.54 : ℝ) ≤ w ^ ((1:ℝ) / 2.4) := by
    rw [exp512_eq]
    apply le_rpow_ratio 12 5 (by norm_num) h0 (by norm_num)
    calc (0.54 : ℝ) ^ 12 ≤ 0.2311 ^ 5 := by norm_num
      _ ≤ w ^ 5 := pow_le_pow_left₀ (by norm_num) hw 5
  linarith

set_option maxHeartbeats 1000000 in
/-- Core interval computation behind the pathological color: with the two
linearized channels bounded, the companded Lab coordinates have |a| below
1e-4 and b near 0.596. Stated over opaque channel values to keep the
arithmetic symbolic. -/
lemma patho_core (lr lg : ℝ) (hlr1 : 0.32791835 ≤ lr) (hlr2 : lr ≤ 0.32791836)
    (hlg1 : 0.21404114 ≤ lg) (hlg2 : lg ≤ 0.21404115) :
    |5 * (lab_f ((0.41239079926595948 * lr + 0.35758433938387796 * lg +
        0.18048078840183429 * 0) / 0.95047) -
      lab_f ((0.21263900587151036 * lr + 0.71516867876775593 * lg +
        0.072192315360733715 * 0) / 1))| ≤ 1e-4 ∧
    0.5962243 ≤ 2 * (lab_f ((0.21263900587151036 * lr + 0.71516867876775593 * lg +
        0.072192315360733715 * 0) / 1) -
      lab_f ((0.019330818715591851 * lr + 0.11919477979462599 * lg +
        0.95053215224966058 * 0) / 1.08883)) ∧
    2 * (lab_f ((0.21263900587151036 * lr + 0.71516867876775593 * lg +
        0.072192315360733715 * 0) / 1) -
      lab_f ((0.019330818715591851 * lr + 0.11919477979462599 * lg +
        0.95053215224966058 * 0) / 1.08883)) ≤ 0.5962250 ∧
    0.60623471 ≤ (1.16 * lab_f ((0.21263900587151036 * lr + 0.71516867876775593 * lg +
        0.072192315360733715 * 0) / 1) - 0.16 + 0.16) / 1.16 ∧
    (1.16 * lab_f ((0.21263900587151036 * lr + 0.71516867876775593 * lg +
        0.072192315360733715 * 0) / 1) - 0.16 + 0.16) / 1.16 ≤ 0.60623481 := by
  set u := (0.41239079926595948 * lr + 0.35758433938387796 * lg +
    0.18048078840183429 * 0) / 0.95047 with hudef
  set v := (0.21263900587151036 * lr + 0.71516867876775593 * lg +
    0.072192315360733715 * 0) / 1 with hvdef
  set w := (0.019330818715591851 * lr + 0.11919477979462599 * lg +
    0.95053215224966058 * 0) / 1.08883 with hwdef
  have hu : 0.22280372 ≤ u ∧ u ≤ 0.22280376 := by
    rw [hudef]
    constructor
    · rw [le_div_iff₀ (by norm_num : (0:ℝ) < 0.95047)]
      nlinarith
    · rw [div_le_iff₀ (by norm_num : (0:ℝ) < 0.95047)]
      nlinarith
  have hv : 0.22280373 ≤ v ∧ v ≤ 0.22280377 := by
    rw [hvdef]
    constructor
    · rw [le_div_iff₀ (by norm_num : (0:ℝ) < 1)]
      nlinarith
    · rw [div_le_iff₀ (by norm_num : (0:ℝ) < 1)]
      nlinarith
  have hw : 0.02925295 ≤ w ∧ w ≤ 0.02925299 := by
    rw [hwdef]
    constructor
    · rw [le_div_iff₀ (by norm_num : (0:ℝ) < 1.08883)]
      nlinarith
    · rw [div_le_iff₀ (by norm_num : (0:ℝ) < 1.08883)]
      nlinarith
  clear_value u v w
  have hfx : 0.60623470 ≤ cbrt u ∧ cbrt u ≤ 0.60623480 :=
    cbrt_bounds (by linarith [hu.1]) (by norm_num) (by norm_num)
      (by nlinarith [hu.1]) (by nlinarith [hu.2])
  have hfy : 0.60623471 ≤ cbrt v ∧ cbrt v ≤ 0.60623481 :=
    cbrt_bounds (by linarith [hv.1]) (by norm_num) (by norm_num)
      (by nlinarith [hv.1]) (by nlinarith [hv.2])
  have hfz : 0.30812235 ≤ cbrt w ∧ cbrt w ≤ 0.30812256 :=
    cbrt_bounds (by linarith [hw.1]) (by norm_num) (by norm_num)
      (by nlinarith [hw.1]) (by nlinarith [hw.2])
  have efx : lab_f u = cbrt u := by
    unfold lab_f
    rw [if_pos (by nlinarith [hu.1])]
  have efy : lab_f v = cbrt v := by
    unfold lab_f
    rw [if_pos (by nlinarith [hv.1])]
  have efz : lab_f w = cbrt w := by
    unfold lab_f
    rw [if_pos (by nlinarith [hw.1])]
  rw [efx, efy, efz]
  refine ⟨abs_le.mpr ⟨by linarith [hfx.1, hfy.2], by linarith [hfx.2, hfy.1]⟩,
    by linarith [hfy.1, hfz.2], by linarith [hfy.2, hfz.1], ?_, ?_⟩
  · rw [le_div_iff₀ (by norm_num : (0:ℝ) < 1.16)]
    linarith [hfy.1]
  · rw [div_le_iff₀ (by norm_num : (0:ℝ) < 1.16)]
    linarith [hfy.2]

/-- Interval bounds for the Lab coordinates of the color
(0.6079613, 0.5, 0), whose a component is within 1e-4 of zero while its b
component is near 0.596. -/
lemma patho_lab_bounds :
    |((Color.mk 0.6079613 0.5 0).Lab).2.1| ≤ 1e-4 ∧
    0.5962243 ≤ ((Color.mk 0.6079613 0.5 0).Lab).2.2 ∧
    ((Color.mk 0.6079613 0.5 0).Lab).2.2 ≤ 0.5962250 ∧
    0.60623471 ≤ (((Color.mk 0.6079613 0.5 0).Lab).1 + 0.16) / 1.16 ∧
    (((Color.mk 0.6079613 0.5 0).Lab).1 + 0.16) / 1.16 ≤ 0.60623481 := by
  have e0 : linearize (0 : ℝ) = 0 := by
    unfold linearize
    rw [if_pos (by norm_num)]
    norm_num
  have hlr : 0.32791835 ≤ linearize (0.6079613 : ℝ) ∧
      linearize (0.6079613 : ℝ) ≤ 0.32791836 := by
    have e1 : linearize (0.6079613 : ℝ) = (((0.6079613 : ℝ) + 0.055) / 1.055) ^ (2.4 : ℝ) := by
      unfold linearize
      rw [if_neg (by norm_num)]
    rw [e1, exp24_eq]
    constructor
    · exact le_rpow_ratio 5 12 (by norm_num) (by norm_num) (by norm_num) (by norm_num)
    · exact rpow_ratio_le 5 12 (by norm_num) (by norm_num) (by norm_num) (by norm_num)
  have hlg : 0.21404114 ≤ linearize (0.5 : ℝ) ∧ linearize (0.5 : ℝ) ≤ 0.21404115 := by
    have e1 : linearize (0.5 : ℝ) = (((0.5 : ℝ) + 0.055) / 1.055) ^ (2.4 : ℝ) := by
      unfold linearize
      rw [if_neg (by norm_num)]
    rw [e1, exp24_eq]
    constructor
    · exact le_rpow_ratio 5 12 (by norm_num) (by norm_num) (by norm_num) (by norm_num)
    · exact rpow_ratio_le 5 12 (by norm_num) (by norm_num) (by norm_num) (by norm_num)
  simp only [Color.Lab, XyzToLab, Color.Xyz, Color.LinearRgb, LinearRgbToXyz,
    XyzToLabWhiteRef, D65]
  rw [e0]
  exact patho_core (linearize (0.6079613 : ℝ)) (linearize (0.5 : ℝ))
    hlr.1 hlr.2 hlg.1 hlg.2

/-- When LabToHcl has zeroed the hue of a color with b near 0.596, the
inverse conversion lands on a color whose blue channel is at least 0.5. -/
lemma hcl_roundtrip_B_large {L a b : ℝ} (ha : |a| ≤ 1e-4)
    (hb1 : 0.5962243 ≤ b) (hb2 : b ≤ 0.5962250)
    (hl1 : 0.60623471 ≤ (L + 0.16) / 1.16) (hl2 : (L + 0.16) / 1.16 ≤ 0.60623481) :
    0.5 ≤ (Hcl (LabToHcl L a b).1 (LabToHcl L a b).2.1 (LabToHcl L a b).2.2).B := by
  rw [labToHcl_forced_hue ha]
  show 0.5 ≤ (Hcl 0 (Real.sqrt (sq a + sq b)) L).B
  simp only [Hcl, HclWhiteRef, HclToLab, LabWhiteRef, LabToXyzWhiteRef, Xyz,
    XyzToLinearRgb, LinearRgb, D65]
  simp only [mul_zero, Real.cos_zero, Real.sin_zero, mul_one, zero_div, sub_zero]
  set c := Real.sqrt (sq a + sq b) with hcdef
  set l2 := (L + 0.16) / 1.16 with hl2def
  have hc1 : 0.5962243 ≤ c := by
    rw [hcdef]
    exact chroma_lower (by norm_num) hb1
  have hc2 : c ≤ 0.5962251 := by
    rw [hcdef]
    have haa := abs_le.mp ha
    calc Real.sqrt (sq a + sq b) ≤ Real.sqrt ((0.5962251 : ℝ) ^ 2) := by
          apply Real.sqrt_le_sqrt
          simp only [sq_eq_pow]
          nlinarith [haa.1, haa.2]
      _ = 0.5962251 := Real.sqrt_sq (by norm_num)
  clear_value c l2
  have e1 : lab_finv (l2 + c / 5) = (l2 + c / 5) ^ 3 := by
    unfold lab_finv
    rw [if_pos (by nlinarith)]
    ring
  have e2 : lab_finv l2 = l2 ^ 3 := by
    unfold lab_finv
    rw [if_pos (by nlinarith)]
    ring
  rw [e1, e2]
  apply delin_ge_half
  have hX1 : (0.7254795 : ℝ) ^ 3 ≤ (l2 + c / 5) ^ 3 :=
    pow_le_pow_left₀ (by norm_num) (by linarith) 3
  have hX2 : (l2 + c / 5) ^ 3 ≤ (0.7254799 : ℝ) ^ 3 :=
    pow_le_pow_left₀ (by linarith) (by linarith) 3
  have hY1 : (0.60623471 : ℝ) ^ 3 ≤ l2 ^ 3 :=
    pow_le_pow_left₀ (by norm_num) (by linarith) 3
  have hY2 : l2 ^ 3 ≤ (0.60623481 : ℝ) ^ 3 :=
    pow_le_pow_left₀ (by linarith) (by linarith) 3
  nlinarith [hX1, hX2, hY1, hY2]

/-- C1: for the valid color (0.6079613, 0.5, 0), whose Lab a coordinate is
within 1e-4 of zero while b is near 0.596, the forward HCL conversion
forces the hue to 0, and the HCL round trip returns a color whose blue
channel differs from the original by far more than 1e-4. -/
theorem C1_hcl_roundtrip_failure :
    (Color.mk 0.6079613 0.5 0).IsValid ∧
    ((Color.mk 0.6079613 0.5 0).Hcl).1 = 0 ∧
    1e-4 < |(Hcl ((Color.mk 0.6079613 0.5 0).Hcl).1
        ((Color.mk 0.6079613 0.5 0).Hcl).2.1
        ((Color.mk 0.6079613 0.5 0).Hcl).2.2).B - (Color.mk 0.6079613 0.5 0).B| := by
  obtain ⟨ha, hb1, hb2, hl1, hl2⟩ := patho_lab_bounds
  have hkey : (Color.mk 0.6079613 0.5 0).Hcl =
      LabToHcl ((Color.mk 0.6079613 0.5 0).Lab).1 ((Color.mk 0.6079613 0.5 0).Lab).2.1
        ((Color.mk 0.6079613 0.5 0).Lab).2.2 := rfl
  refine ⟨by norm_num [Color.IsValid], ?_, ?_⟩
  · rw [hkey]
    exact labToHcl_forced_hue ha
  · rw [hkey]
    have hB := hcl_roundtrip_B_large ha hb1 hb2 hl1 hl2
    have hc0 : (Color.mk (0.6079613 : ℝ) 0.5 0).B = 0 := rfl
    rw [hc0, sub_zero, abs_of_nonneg (by linarith)]
    linarith

/-- C4: at t = 0, BlendHcl of the valid color (0.6079613, 0.5, 0) with pure
red does not recover the first endpoint: the forward conversion zeroes its
hue, so the blend returns a color whose blue channel is off by far more
than 1e-4. -/
theorem C4_blendhcl_boundary_failure :
    (Color.mk 0.6079613 0.5 0).IsValid ∧ (Color.mk 1 0 0).IsValid ∧
    1e-4 < |(BlendHcl (Color.mk 0.6079613 0.5 0) (Color.mk 1 0 0) 0).B -
      (Color.mk 0.6079613 0.5 0).B| := by
  obtain ⟨ha, hb1, hb2, hl1, hl2⟩ := patho_lab_bounds
  have hkey : (Color.mk 0.6079613 0.5 0).Hcl =
      LabToHcl ((Color.mk 0.6079613 0.5 0).Lab).1 ((Color.mk 0.6079613 0.5 0).Lab).2.1
        ((Color.mk 0.6079613 0.5 0).Lab).2.2 := rfl
  have hhue0 : ((Color.mk 0.6079613 0.5 0).Hcl).1 = 0 := by
    rw [hkey]
    exact labToHcl_forced_hue ha
  have hcchr : 0.5962243 ≤ ((Color.mk 0.6079613 0.5 0).Hcl).2.1 := by
    rw [hkey]
    show 0.5962243 ≤ Real.sqrt (sq ((Color.mk 0.6079613 0.5 0).Lab).2.1 +
      sq ((Color.mk 0.6079613 0.5 0).Lab).2.2)
    exact chroma_lower (by norm_num) hb1
  have hhue : blendHclHue (Color.mk 0.6079613 0.5 0) (Color.mk 1 0 0) 0 = 0 := by
    simp only [blendHclHue]
    rw [if_neg (by rintro ⟨h, -⟩; linarith)]
    by_cases h2 : ((Color.mk 1 0 0).Hcl).2.1 ≤ 0.00015 ∧
        ((Color.mk 0.6079613 0.5 0).Hcl).2.1 ≥ 0.00015
    · rw [if_pos h2]
      show interp_angle ((Color.mk 0.6079613 0.5 0).Hcl).1
        ((Color.mk 0.6079613 0.5 0).Hcl).1 0 = 0
      rw [hhue0]
      exact interp_angle_t0 0 0 le_rfl (by norm_num)
    · rw [if_neg h2]
      show interp_angle ((Color.mk 0.6079613 0.5 0).Hcl).1
        ((Color.mk 1 0 0).Hcl).1 0 = 0
      rw [hhue0]
      exact interp_angle_t0 0 _ le_rfl (by norm_num)
  refine ⟨by norm_num [Color.IsValid], by norm_num [Color.IsValid], ?_⟩
  have hB := hcl_roundtrip_B_large ha hb1 hb2 hl1 hl2
  rw [labToHcl_forced_hue ha] at hB
  simp only [BlendHcl, Color.Clamped]
  rw [hhue]
  simp only [show ∀ x y : ℝ, x + 0 * (y - x) = x from fun x y => by ring]
  rw [hkey]
  rw [sub_zero]
  have hcl : 0.5 ≤ clamp01 ((Hcl 0 (LabToHcl ((Color.mk 0.6079613 0.5 0).Lab).1
      ((Color.mk 0.6079613 0.5 0).Lab).2.1 ((Color.mk 0.6079613 0.5 0).Lab).2.2).2.1
      (LabToHcl ((Color.mk 0.6079613 0.5 0).Lab).1 ((Color.mk 0.6079613 0.5 0).Lab).2.1
      ((Color.mk 0.6079613 0.5 0).Lab).2.2).2.2).B) :=
    clamp01_lower (by norm_num) hB
  rw [abs_of_nonneg (by linarith)]
  linarith
